import Mathlib

/-!
Verification of the heuristic accessibility-analysis engine: a shallow
embedding of the analyzers, orchestrator, scoring and reporting layers,
with theorems settling the specification claims.

Strings are modelled as lists of characters (`Str`); JavaScript numbers
appearing in scores are modelled exactly with integers and rationals, and
the IEEE special values (infinities, NaN) are modelled explicitly by
`JsNum` where division by zero matters.
-/

namespace PdfA

/-- Characters JavaScript treats as whitespace (the ASCII ones; the
analyzed documents and all concrete inputs here are ASCII). -/
def jsIsWs (c : Char) : Bool :=
  c = ' ' || c = '\t' || c = '\n' || c = '\x0d' || c = '\x0b' || c = '\x0c'

/-- Strings, modelled as lists of characters. -/
abbrev Str := List Char

/-- JavaScript String.prototype.trim. -/
def jsTrim (s : Str) : Str :=
  ((s.dropWhile jsIsWs).reverse.dropWhile jsIsWs).reverse

/-- JavaScript String.prototype.split with a single-character separator:
every occurrence splits, empty pieces are kept. -/
def splitOnChar (sep : Char) : Str → List Str
  | [] => [[]]
  | c :: cs =>
    match splitOnChar sep cs with
    | [] => [[c]]
    | s :: ss => if c = sep then [] :: s :: ss else (c :: s) :: ss

theorem length_dropWhile_le {α : Type} (p : α → Bool) (l : List α) :
    (l.dropWhile p).length ≤ l.length := by
  induction l with
  | nil => simp
  | cons a l ih =>
    by_cases h : p a
    · simpa [List.dropWhile, h] using Nat.le_succ_of_le ih
    · simp [List.dropWhile, h]

/-- Does the string start with a whitespace character? -/
def headWs : Str → Bool
  | c :: _ => jsIsWs c
  | [] => false

/-- JavaScript String.prototype.split on the regexp of whitespace runs:
a leading run yields a leading empty piece and a trailing run a trailing
empty piece, exactly as in JavaScript. A whitespace character inside a
run is absorbed; the last character of a run closes the current piece. -/
def jsSplitWs : Str → List Str
  | [] => [[]]
  | c :: cs =>
    if jsIsWs c then
      if headWs cs then jsSplitWs cs else [] :: jsSplitWs cs
    else
      match jsSplitWs cs with
      | [] => [[c]]
      | s :: ss => (c :: s) :: ss

/-- Lower-casing as JavaScript toLowerCase acts on ASCII. -/
def jsToLower (s : Str) : Str := s.map Char.toLower

/-- Upper-casing as JavaScript toUpperCase acts on ASCII. -/
def jsToUpper (s : Str) : Str := s.map Char.toUpper

/-- Does `pat` occur at the start? -/
def strStartsWith (pat s : Str) : Bool :=
  pat.isPrefixOf s

/-- Does `pat` occur at the end (String.prototype.endsWith)? -/
def strEndsWith (pat s : Str) : Bool :=
  pat.reverse.isPrefixOf s.reverse

/-- String.prototype.includes. -/
def strContains (pat : Str) : Str → Bool
  | [] => pat.isEmpty
  | c :: cs => pat.isPrefixOf (c :: cs) || strContains pat cs

/-- Number of occurrences of a character (the length of a /x/g match list). -/
def countChar (x : Char) (s : Str) : ℕ :=
  (s.filter (· = x)).length

/-- The scan of `countCI`, fuel-bounded (the fuel is the string length,
and every step consumes at least one character). -/
def countCIRec (pat : Str) : ℕ → Str → ℕ
  | 0, _ => 0
  | _ + 1, [] => 0
  | fuel + 1, c :: cs =>
    if pat.isEmpty then 0
    else if pat.isPrefixOf (jsToLower (c :: cs)) then
      1 + countCIRec pat fuel (cs.drop (pat.length - 1))
    else countCIRec pat fuel cs

/-- Non-overlapping, case-insensitive occurrence count: the length of the
match list of a /pat/gi regexp whose pattern is a literal word. `pat` is
given in lower case and is never empty at any call site. -/
def countCI (pat : Str) (s : Str) : ℕ := countCIRec pat s.length s

/-- Decimal digits, fuel-bounded (any fuel above the number of digits
gives the digits; `natToChars` supplies one above the number itself). -/
def natToCharsRec : ℕ → ℕ → Str
  | 0, _ => []
  | fuel + 1, n =>
    if n < 10 then [Char.ofNat (48 + n)]
    else natToCharsRec fuel (n / 10) ++ [Char.ofNat (48 + n % 10)]

/-- Decimal digits of a natural number, most significant first. -/
def natToChars (n : ℕ) : Str := natToCharsRec (n + 1) n

theorem natToCharsRec_fuel :
    ∀ n (f1 f2 : ℕ), n < f1 → n < f2 → natToCharsRec f1 n = natToCharsRec f2 n := by
  intro n
  induction n using Nat.strong_induction_on with
  | _ n ih =>
    intro f1 f2 h1 h2
    match f1, f2 with
    | g1 + 1, g2 + 1 =>
      by_cases h : n < 10
      · simp [natToCharsRec, h]
      · have hn : 10 ≤ n := le_of_not_lt h
        have hd : n / 10 < n := Nat.div_lt_self (by omega) (by omega)
        simp only [natToCharsRec, h, if_false]
        rw [ih (n / 10) hd g1 g2 (by omega) (by omega)]

theorem natToChars_unfold (n : ℕ) :
    natToChars n =
      if n < 10 then [Char.ofNat (48 + n)]
      else natToChars (n / 10) ++ [Char.ofNat (48 + n % 10)] := by
  show natToCharsRec (n + 1) n = _
  by_cases h : n < 10
  · simp [natToCharsRec, h]
  · have hd : n / 10 < n := Nat.div_lt_self (by omega) (by omega)
    simp only [natToCharsRec, h, if_false]
    rw [natToCharsRec_fuel (n / 10) n (n / 10 + 1) (by omega) (by omega)]
    rfl

/-- Decimal rendering of an integer. -/
def intToChars (z : ℤ) : Str :=
  if z < 0 then '-' :: natToChars z.natAbs else natToChars z.natAbs

/-!
Rational arithmetic: the kernel does not unfold the standard `Rat`
operations (they are irreducible), so the embedded computations use the
wrappers below, built on the reducible `Rat.divInt`; each one is proved
equal to the standard operation. -/

/-- Rational addition (kernel-evaluable). -/
def qadd (a b : ℚ) : ℚ := Rat.divInt (a.num * b.den + b.num * a.den) (a.den * b.den)

/-- Rational subtraction (kernel-evaluable). -/
def qsub (a b : ℚ) : ℚ := Rat.divInt (a.num * b.den - b.num * a.den) (a.den * b.den)

/-- Rational multiplication (kernel-evaluable). -/
def qmul (a b : ℚ) : ℚ := Rat.divInt (a.num * b.num) (a.den * b.den)

/-- Rational division (kernel-evaluable; division by zero gives zero, as
for the standard operation). -/
def qdiv (a b : ℚ) : ℚ := Rat.divInt (a.num * b.den) (a.den * b.num)

theorem qadd_eq (a b : ℚ) : qadd a b = a + b := by
  rw [qadd, Rat.divInt_eq_div]
  have ha : ((a.den : ℚ)) ≠ 0 := by exact_mod_cast a.den_ne_zero
  have hb : ((b.den : ℚ)) ≠ 0 := by exact_mod_cast b.den_ne_zero
  conv_rhs => rw [← Rat.num_div_den a, ← Rat.num_div_den b]
  field_simp
  try ring

theorem qsub_eq (a b : ℚ) : qsub a b = a - b := by
  rw [qsub, Rat.divInt_eq_div]
  have ha : ((a.den : ℚ)) ≠ 0 := by exact_mod_cast a.den_ne_zero
  have hb : ((b.den : ℚ)) ≠ 0 := by exact_mod_cast b.den_ne_zero
  conv_rhs => rw [← Rat.num_div_den a, ← Rat.num_div_den b]
  field_simp
  try ring

theorem qmul_eq (a b : ℚ) : qmul a b = a * b := by
  rw [qmul, Rat.divInt_eq_div]
  have ha : ((a.den : ℚ)) ≠ 0 := by exact_mod_cast a.den_ne_zero
  have hb : ((b.den : ℚ)) ≠ 0 := by exact_mod_cast b.den_ne_zero
  conv_rhs => rw [← Rat.num_div_den a, ← Rat.num_div_den b]
  field_simp
  try ring

theorem qdiv_eq (a b : ℚ) : qdiv a b = a / b := by
  rw [qdiv, Rat.divInt_eq_div]
  by_cases hz : b = 0
  · subst hz
    simp
  · have ha : ((a.den : ℚ)) ≠ 0 := by exact_mod_cast a.den_ne_zero
    have hb : ((b.den : ℚ)) ≠ 0 := by exact_mod_cast b.den_ne_zero
    have hbn : ((b.num : ℚ)) ≠ 0 := by
      exact_mod_cast Rat.num_ne_zero.mpr hz
    conv_rhs => rw [← Rat.num_div_den a, ← Rat.num_div_den b]
    push_cast
    field_simp
    try ring

/-- JavaScript Math.round: round to the nearest integer, half toward
positive infinity. -/
def jsRound (q : ℚ) : ℤ := (qadd q (Rat.divInt 1 2)).floor

theorem jsRound_eq (q : ℚ) : jsRound q = ⌊q + 1 / 2⌋ := by
  rw [jsRound, qadd_eq]
  show ⌊q + Rat.divInt 1 2⌋ = ⌊q + 1 / 2⌋
  norm_num [Rat.divInt_eq_div]

/-- Math.ceil of a natural-number quotient. -/
def natCeilDiv (a b : ℕ) : ℕ := (a + b - 1) / b

/-! ## Issue / Fix data model

From the interfaces of tools-drafts/AccessibilityToolsManager.ts. -/

/-- The fixed issue-category enumeration. -/
inductive IssueType where
  | missing_alt_text | heading_structure | table_headers
  | link_text | metadata | reading_order | color_contrast
deriving DecidableEq

/-- Issue severities. -/
inductive Severity where
  | low | medium | high | critical
deriving DecidableEq

/-- AccessibilityIssue. -/
structure AccessibilityIssue where
  type : IssueType
  severity : Severity
  description : Str
  location : Option Str := none
  wcagCriteria : List Str
  suggestion : Str
deriving DecidableEq

/-- AccessibilityFix. -/
structure AccessibilityFix where
  type : Str
  description : Str
  applied : Bool
  wcagImprovement : List Str
  beforeValue : Option Str := none
  afterValue : Option Str := none
deriving DecidableEq

/-- ToolExecutionResult: the per-analyzer result envelope.
`processing_time_ms` is wall-clock time in the source; it is carried as a
field but every embedded run reports 0 (claims explicitly exclude
elapsed-time fields). -/
structure ToolExecutionResult where
  toolName : Str
  success : Bool
  issuesFound : List AccessibilityIssue
  fixesApplied : List AccessibilityFix
  processing_time_ms : ℕ := 0
  error : Option Str := none
deriving DecidableEq

/-- WCAG target level. -/
inductive WcagLevel where
  | A | AA | AAA
deriving DecidableEq

/-- PdfAnalysisContext. The raw byte buffer of the source interface is
never read by any embedded function and is omitted. -/
structure PdfAnalysisContext where
  fileName : Str
  pageCount : ℕ
  textContent : Str
  hasImages : Bool
  hasTables : Bool
  hasLinks : Bool
  language : Str
  wcagLevel : WcagLevel

/-! ## Compliance scoring

From AccessibilityToolsManager.generateAccessibilityReport
(tools-drafts/AccessibilityToolsManager.ts). -/

/-- results.flatMap(result => result.issuesFound). -/
def allIssues (results : List ToolExecutionResult) : List AccessibilityIssue :=
  results.flatMap (·.issuesFound)

/-- results.flatMap(result => result.fixesApplied). -/
def allFixes (results : List ToolExecutionResult) : List AccessibilityFix :=
  results.flatMap (·.fixesApplied)

/-- allIssues.filter(issue => issue.severity === s).length. -/
def severityCount (s : Severity) (results : List ToolExecutionResult) : ℕ :=
  ((allIssues results).filter (fun i => i.severity = s)).length

/-- allFixes.filter(fix => fix.applied).length. -/
def appliedFixCount (results : List ToolExecutionResult) : ℕ :=
  ((allFixes results).filter (·.applied)).length

/-- Weighted scoring: critical = 4 points, high = 3, medium = 2, low = 1. -/
def maxScoreOf (results : List ToolExecutionResult) : ℕ :=
  severityCount .critical results * 4 + severityCount .high results * 3 +
    severityCount .medium results * 2 + severityCount .low results

/-- achievedScore = Math.max(0, maxScore - critical*4 - high*3 - medium*2
- low + appliedFixes*2), over exact integers. -/
def achievedScoreOf (results : List ToolExecutionResult) : ℤ :=
  max 0 ((maxScoreOf results : ℤ) - severityCount .critical results * 4 -
    severityCount .high results * 3 - severityCount .medium results * 2 -
    severityCount .low results + appliedFixCount results * 2)

/-- complianceScore = maxScore > 0 ? Math.round((achievedScore / maxScore)
* 100) : 100. -/
def complianceScore (results : List ToolExecutionResult) : ℤ :=
  if 0 < maxScoreOf results then
    jsRound (qmul (qdiv (achievedScoreOf results : ℚ) (maxScoreOf results : ℚ)) 100)
  else 100

/-! ## Tool orchestrator

From AccessibilityToolsManager.executeTools and optimizeToolOrder
(tools-drafts/AccessibilityToolsManager.ts). -/

/-- A registered analyzer, seen through the AccessibilityToolInterface as
the orchestrator uses it: the eligibility check and the run. The run may
throw (`Except.error`). The optional llmProvider argument is only ever
tested for presence by the tools, so it is carried as a Bool. -/
structure RegisteredTool where
  canProcess : PdfAnalysisContext → Bool
  run : PdfAnalysisContext → Bool → Except Str ToolExecutionResult

/-- The registry map, analyzer name to instance (Map.get semantics). -/
abbrev Registry := Str → Option RegisteredTool

/-- The fixed execution-priority table of optimizeToolOrder; unknown
names get 999 (the || 999 fallback). -/
def toolPriority (name : Str) : ℕ :=
  if name = "document_structure".data then 1
  else if name = "metadata_enhancer".data then 2
  else if name = "heading_structure".data then 3
  else if name = "image_alttext".data then 4
  else if name = "table_accessibility".data then 5
  else if name = "link_text".data then 6
  else if name = "reading_order".data then 7
  else if name = "color_contrast".data then 8
  else if name = "compliance_checker".data then 9
  else 999

/-- Stable insertion of a name into a priority-sorted list: the new name
goes after every name of priority at most its own. -/
def insertByPriority (n : Str) : List Str → List Str
  | [] => [n]
  | m :: ms =>
    if toolPriority n < toolPriority m then n :: m :: ms
    else m :: insertByPriority n ms

/-- toolNames.sort((a, b) => priorityA - priorityB): a stable sort by the
priority table (JavaScript Array.prototype.sort is stable). -/
def optimizeToolOrder (names : List Str) : List Str :=
  names.foldl (fun acc n => insertByPriority n acc) []

/-- The failure envelope the orchestrator emits for an unregistered name. -/
def notFoundResult (name : Str) : ToolExecutionResult :=
  { toolName := name, success := false, issuesFound := [], fixesApplied := [],
    processing_time_ms := 0,
    error := some ("Tool '".data ++ name ++ "' not found".data) }

/-- The failure envelope the orchestrator emits for an ineligible tool. -/
def cannotProcessResult (name : Str) : ToolExecutionResult :=
  { toolName := name, success := false, issuesFound := [], fixesApplied := [],
    processing_time_ms := 0,
    error := some ("Tool '".data ++ name ++ "' cannot process this document type".data) }

/-- The failure envelope for an error escaping a run. -/
def thrownResult (name : Str) (e : Str) : ToolExecutionResult :=
  { toolName := name, success := false, issuesFound := [], fixesApplied := [],
    processing_time_ms := 0, error := some e }

/-- The body of executeTools' loop over the ordered names, returning the
result list and the totalIssues / totalFixes / overallSuccess
accumulators. Note the canProcess branch: it pushes a failure envelope
but leaves overallSuccess untouched, exactly as in the source. -/
def execGo (reg : Registry) (ctx : PdfAnalysisContext) (llm : Bool) :
    List Str → List ToolExecutionResult × ℕ × ℕ × Bool
  | [] => ([], 0, 0, true)
  | name :: rest =>
    match reg name with
    | none =>
      let (rs, ti, tf, _) := execGo reg ctx llm rest
      (notFoundResult name :: rs, ti, tf, false)
    | some tool =>
      if tool.canProcess ctx = false then
        let (rs, ti, tf, ok) := execGo reg ctx llm rest
        (cannotProcessResult name :: rs, ti, tf, ok)
      else
        match tool.run ctx llm with
        | .ok r =>
          let (rs, ti, tf, ok) := execGo reg ctx llm rest
          (r :: rs, r.issuesFound.length + ti, r.fixesApplied.length + tf,
            r.success && ok)
        | .error e =>
          let (rs, ti, tf, _) := execGo reg ctx llm rest
          (thrownResult name e :: rs, ti, tf, false)

/-- The executeTools summary (processingTime is wall-clock time in the
source and is reported as 0 here). -/
structure ExecSummary where
  totalIssues : ℕ
  totalFixes : ℕ
  processingTime : ℕ
  success : Bool
deriving DecidableEq

/-- AccessibilityToolsManager.executeTools: order the requested names by
priority, run each in isolation, and aggregate the summary. -/
def executeTools (reg : Registry) (toolNames : List Str)
    (ctx : PdfAnalysisContext) (llm : Bool) :
    List ToolExecutionResult × ExecSummary :=
  let (rs, ti, tf, ok) := execGo reg ctx llm (optimizeToolOrder toolNames)
  (rs, { totalIssues := ti, totalFixes := tf, processingTime := 0, success := ok })

/-- The envelope executeTools produces for one requested name. -/
def processName (reg : Registry) (ctx : PdfAnalysisContext) (llm : Bool)
    (name : Str) : ToolExecutionResult :=
  match reg name with
  | none => notFoundResult name
  | some tool =>
    if tool.canProcess ctx = false then cannotProcessResult name
    else
      match tool.run ctx llm with
      | .ok r => r
      | .error e => thrownResult name e

/-- The overall-success contribution of one requested name: an
unregistered name or a thrown or failed run clears the flag, while an
ineligible tool leaves it alone (contributes true). -/
def nameSuccessFlag (reg : Registry) (ctx : PdfAnalysisContext) (llm : Bool)
    (name : Str) : Bool :=
  match reg name with
  | none => false
  | some tool =>
    if tool.canProcess ctx = false then true
    else
      match tool.run ctx llm with
      | .ok r => r.success
      | .error _ => false

theorem execGo_results (reg : Registry) (ctx : PdfAnalysisContext) (llm : Bool)
    (names : List Str) :
    (execGo reg ctx llm names).1 = names.map (processName reg ctx llm) := by
  induction names with
  | nil => rfl
  | cons n rest ih =>
    rcases h : reg n with _ | tool
    · simp [execGo, processName, h, ih]
    · by_cases hc : tool.canProcess ctx = false
      · simp [execGo, processName, h, hc, ih]
      · rcases hr : tool.run ctx llm with e | r
        · simp [execGo, processName, h, hc, hr, ih]
        · simp [execGo, processName, h, hc, hr, ih]

theorem execGo_success (reg : Registry) (ctx : PdfAnalysisContext) (llm : Bool)
    (names : List Str) :
    (execGo reg ctx llm names).2.2.2 = names.all (nameSuccessFlag reg ctx llm) := by
  induction names with
  | nil => rfl
  | cons n rest ih =>
    rcases h : reg n with _ | tool
    · simp [execGo, nameSuccessFlag, h]
    · by_cases hc : tool.canProcess ctx = false
      · simp [execGo, nameSuccessFlag, h, hc, ih]
      · rcases hr : tool.run ctx llm with e | r
        · simp [execGo, nameSuccessFlag, h, hc, hr]
        · simp [execGo, nameSuccessFlag, h, hc, hr, ih]

/-! ## Heading-Structure analyzer

From HeadingStructureTool (tools-drafts/MetadataEnhancerTool.ts). -/

/-- A detected heading. -/
structure HeadingInfo where
  text : Str
  level : ℕ
  position : ℕ
  page : ℕ
  isProperlyTagged : Bool
  contextText : Str
  suggestedLevel : Option ℕ := none
deriving DecidableEq

/-- The /^\d+\.?\s/ test: digits, an optional dot, then a whitespace
character, at the start of the line. -/
def numDotWsTest (s : Str) : Bool :=
  let ds := s.takeWhile Char.isDigit
  let rest := s.drop ds.length
  !ds.isEmpty &&
    (match rest with
     | [] => false
     | c :: r =>
       if jsIsWs c then true
       else if c = '.' then
         match r with
         | [] => false
         | d :: _ => jsIsWs d
       else false)

/-- The /^(chapter|section|part)\s+\d+/i test. -/
def chapterSectionTest (s : Str) : Bool :=
  ["chapter".data, "section".data, "part".data].any fun w =>
    w.isPrefixOf (jsToLower s) &&
      (let rest := (jsToLower s).drop w.length
       (match rest with
        | c :: _ => jsIsWs c
        | [] => false) &&
        (match rest.dropWhile jsIsWs with
         | d :: _ => d.isDigit
         | [] => false))

/-- HeadingStructureTool.isTitleCase: more than 70% of the
whitespace-separated words start with a character equal to its own upper
case. -/
def isTitleCase (text : Str) : Bool :=
  let words := jsSplitWs text
  if words.length = 0 then false
  else
    let capitalizedWords := words.filter fun w =>
      w.length > 0 &&
        (match w with
         | c :: _ => Char.toUpper c = c
         | [] => false)
    (qdiv (capitalizedWords.length : ℚ) (words.length : ℚ) > Rat.divInt 7 10 : Bool)

/-- HeadingStructureTool.estimateHeadingLevelFromContext: the heading
level guessed from the relative line position in the document. -/
def estimateHeadingLevelFromContext (_line : Str) (lines : List Str) (index : ℕ) : ℕ :=
  let positionRatio : ℚ := qdiv (index : ℚ) (lines.length : ℚ)
  if positionRatio < Rat.divInt 1 10 then 1
  else if positionRatio < Rat.divInt 3 10 then 2
  else if positionRatio < Rat.divInt 6 10 then 3
  else 4

/-- HeadingStructureTool.detectHeadingLevel: heading heuristics over one
trimmed line (0 = not a heading). -/
def detectHeadingLevel (line : Str) (lines : List Str) (index : ℕ) : ℕ :=
  if numDotWsTest line && line.length < 100 then
    min (countChar '.' line + 1) 6
  else if chapterSectionTest line then 1
  else if jsToUpper line = line && line.length > 3 && line.length < 80 then
    estimateHeadingLevelFromContext line lines index
  else if isTitleCase line && line.length < 100 && !strEndsWith ".".data line then
    estimateHeadingLevelFromContext line lines index
  else if index + 1 < lines.length && (jsTrim (lines.getD (index + 1) [])).isEmpty
      && line.length < 80 then
    estimateHeadingLevelFromContext line lines index
  else 0

/-- HeadingStructureTool.getContextText: two lines before through two
lines after, joined by spaces and trimmed. -/
def getContextText (lines : List Str) (index : ℕ) : Str :=
  let start := index - 2
  let stop := min lines.length (index + 3)
  jsTrim (List.intercalate [' '] ((lines.drop start).take (stop - start)))

/-- The extraction loop of HeadingStructureTool.extractHeadings: walk the
enumerated raw lines, skipping blank ones; `position` accumulates the
trimmed lengths of the non-blank lines already passed. -/
def extractHeadingsAux (lines : List Str) :
    List (ℕ × Str) → ℕ → List HeadingInfo
  | [], _ => []
  | (i, raw) :: rest, position =>
    let line := jsTrim raw
    if line.length = 0 then extractHeadingsAux lines rest position
    else
      let headingLevel := detectHeadingLevel line lines i
      let tail := extractHeadingsAux lines rest (position + line.length)
      if headingLevel > 0 then
        { text := line, level := headingLevel, position := position,
          page := natCeilDiv position 3000, isProperlyTagged := false,
          contextText := getContextText lines i } :: tail
      else tail

/-- HeadingStructureTool.extractHeadings. -/
def extractHeadings (textContent : Str) : List HeadingInfo :=
  let lines := splitOnChar '\n' textContent
  extractHeadingsAux lines lines.enum 0

/-- The loop of hasLogicalHeadingStructure: `currentLevel` is the level of
the immediately preceding heading (initially 0). -/
def hasLogicalGo (currentLevel : ℕ) : List HeadingInfo → Bool
  | [] => true
  | h :: hs => if h.level > currentLevel + 1 then false else hasLogicalGo h.level hs

/-- HeadingStructureTool.hasLogicalHeadingStructure. -/
def hasLogicalHeadingStructure (headings : List HeadingInfo) : Bool :=
  hasLogicalGo 0 headings

/-- Lexicographic (string) comparison of two character lists, as
JavaScript compares strings. -/
def strLexLt : Str → Str → Bool
  | [], [] => false
  | [], _ :: _ => true
  | _ :: _, [] => false
  | a :: as, b :: bs => if a < b then true else if b < a then false else strLexLt as bs

/-- Stable insertion by the decimal-string order (JavaScript default
Array.prototype.sort formats numbers as strings). -/
def insertNumStr (n : ℕ) : List ℕ → List ℕ
  | [] => [n]
  | m :: ms =>
    if strLexLt (natToChars n) (natToChars m) then n :: m :: ms
    else m :: insertNumStr n ms

/-- The .sort() at the end of findSkippedLevels. -/
def jsSortNums (xs : List ℕ) : List ℕ :=
  xs.foldl (fun acc n => insertNumStr n acc) []

/-- The loop of findSkippedLevels: `maxLevel` is the running maximum of
the heading levels; a jump past `maxLevel + 1` records every level
strictly between. -/
def findSkippedGo (maxLevel : ℕ) (skipped : List ℕ) :
    List HeadingInfo → List ℕ
  | [] => skipped
  | h :: hs =>
    let skipped :=
      if h.level > maxLevel + 1 then
        (List.range' (maxLevel + 1) (h.level - (maxLevel + 1))).foldl
          (fun acc level => if acc.contains level then acc else acc ++ [level])
          skipped
      else skipped
    findSkippedGo (max maxLevel h.level) skipped hs

/-- HeadingStructureTool.findSkippedLevels. -/
def findSkippedLevels (headings : List HeadingInfo) : List ℕ :=
  jsSortNums (findSkippedGo 0 [] headings)

/-- The loop of findDuplicateHeadings: case-insensitive trimmed texts
already seen, and the duplicates in insertion order. -/
def findDupGo (seen dups : List Str) : List HeadingInfo → List Str
  | [] => dups
  | h :: hs =>
    let normalizedText := jsTrim (jsToLower h.text)
    if seen.contains normalizedText then
      findDupGo seen (if dups.contains h.text then dups else dups ++ [h.text]) hs
    else findDupGo (seen ++ [normalizedText]) dups hs

/-- HeadingStructureTool.findDuplicateHeadings. -/
def findDuplicateHeadings (headings : List HeadingInfo) : List Str :=
  findDupGo [] [] headings

/-- The analysis record of analyzeHeadingStructure. -/
structure HeadingStructureAnalysis where
  headings : List HeadingInfo
  hasLogicalStructure : Bool
  skippedLevels : List ℕ
  duplicateHeadings : List Str
  emptyHeadings : List HeadingInfo
  tooManyH1s : Bool
deriving DecidableEq

/-- HeadingStructureTool.analyzeHeadingStructure. -/
def analyzeHeadingStructure (ctx : PdfAnalysisContext) : HeadingStructureAnalysis :=
  let headings := extractHeadings ctx.textContent
  { headings := headings
    hasLogicalStructure := hasLogicalHeadingStructure headings
    skippedLevels := findSkippedLevels headings
    duplicateHeadings := findDuplicateHeadings headings
    emptyHeadings := headings.filter fun h => (jsTrim h.text).length = 0
    tooManyH1s := (headings.filter fun h => h.level = 1).length > 1 }

/-- The property the specification ascribes to the logical-structure
flag, written from the specification text for comparison with the
source: no heading level exceeds the running maximum of all previous
levels plus one. -/
def levelsNoJumpAboveRunningMaxGo (runMax : ℕ) : List ℕ → Bool
  | [] => true
  | l :: ls =>
    if l > runMax + 1 then false else levelsNoJumpAboveRunningMaxGo (max runMax l) ls

/-- Spec-side predicate for claim C3 (running-maximum reading). -/
def levelsNoJumpAboveRunningMax (levels : List ℕ) : Bool :=
  levelsNoJumpAboveRunningMaxGo 0 levels

/-! ## Table-Structure analyzer

From TableAccessibilityTool
(src/nodes/PdfAccessibility/tools/AccessibilityToolsManager.ts). -/

/-- A detected table. -/
structure TableInfo where
  index : ℕ
  page : ℕ
  rows : ℕ
  columns : ℕ
  hasHeaders : Bool
  hasCaption : Bool
  caption : Option Str := none
  headers : List Str
  sampleData : List (List Str)
  isDataTable : Bool
  isLayoutTable : Bool
  contextText : Str
deriving DecidableEq

/-- Digits, then an optional dot-and-digits fraction; returns the
remaining characters, or none when there is no leading digit. -/
def decimalCore (s : Str) : Option Str :=
  let ds := s.takeWhile Char.isDigit
  if ds.isEmpty then none
  else
    let r0 := s.drop ds.length
    match r0 with
    | '.' :: r =>
      let fs := r.takeWhile Char.isDigit
      if fs.isEmpty then some r0 else some (r.drop fs.length)
    | _ => some r0

/-- The /^\d+(\.\d+)?$/ test. -/
def decimalTest (s : Str) : Bool :=
  match decimalCore s with
  | some [] => true
  | _ => false

/-- The /^\d+(\.\d+)?%?$/ test. -/
def decimalPercentTest (s : Str) : Bool :=
  match decimalCore s with
  | some [] => true
  | some ['%'] => true
  | _ => false

/-- The /^\$\d+/ test. -/
def dollarTest (s : Str) : Bool :=
  match s with
  | '$' :: d :: _ => d.isDigit
  | _ => false

/-- TableAccessibilityTool.hasTableKeywords. -/
def hasTableKeywords (line : Str) : Bool :=
  let lowerLine := jsToLower line
  ["total".data, "sum".data, "count".data, "average".data, "percentage".data,
    "%".data, "$".data].any fun keyword => strContains keyword lowerLine

/-- TableAccessibilityTool.looksLikeTableRow. -/
def looksLikeTableRow (line : Str) : Bool :=
  countChar '|' line ≥ 2 || countChar '\t' line ≥ 2 || hasTableKeywords line

/-- TableAccessibilityTool.detectTableHeaders. -/
def detectTableHeaders (firstRow : List Str) (allRows : List (List Str)) : Bool :=
  if firstRow.length = 0 then false
  else
    let headerWords := ["name".data, "type".data, "date".data, "value".data,
      "description".data, "id".data, "category".data, "status".data]
    let hasHeaderWords := firstRow.any fun cell =>
      headerWords.any fun word => strContains word (jsToLower cell)
    let firstRowNumeric := (firstRow.filter fun cell => decimalTest (jsTrim cell)).length
    let dataRowsNumeric := ((allRows.drop 1).take 2).map fun row =>
      (row.filter fun cell => decimalTest (jsTrim cell)).length
    let avgDataNumeric : ℚ :=
      if dataRowsNumeric.length > 0 then
        qdiv (dataRowsNumeric.sum : ℚ) (dataRowsNumeric.length : ℚ)
      else 0
    hasHeaderWords || ((firstRowNumeric : ℚ) < avgDataNumeric && avgDataNumeric > 0)

/-- TableAccessibilityTool.isDataTable: more than 30% numeric, currency
or percentage cells among the first five rows. -/
def isDataTable (rows : List (List Str)) : Bool :=
  if rows.length < 2 then false
  else
    let sampled := (rows.take 5).flatMap id
    let numericCells := (sampled.filter fun cell =>
      decimalPercentTest (jsTrim cell) || dollarTest (jsTrim cell)).length
    let totalCells := sampled.length
    totalCells > 0 && (qdiv (numericCells : ℚ) (totalCells : ℚ) > Rat.divInt 3 10 : Bool)

/-- TableAccessibilityTool.getTableContext. -/
def getTableContext (lines : List Str) : Str :=
  (List.intercalate [' '] (lines.take 3)).take 200

/-- TableAccessibilityTool.parseTableFromLines. -/
def parseTableFromLines (lines : List Str) (index : ℕ) (lineNumber : ℕ) :
    Option TableInfo :=
  if lines.length < 2 then none
  else
    let separator := if strContains "|".data (lines.headD []) then '|' else '\t'
    let rows := lines.filterMap fun line =>
      let cells := ((splitOnChar separator line).map jsTrim).filter
        fun cell => cell.length > 0
      if cells.length > 1 then some cells else none
    if rows.length < 2 then none
    else
      let columns := (rows.map List.length).foldl max 0
      let firstRow := rows.headD []
      let hasHeaders := detectTableHeaders firstRow rows
      some
        { index := index
          page := natCeilDiv lineNumber 50
          rows := rows.length
          columns := columns
          hasHeaders := hasHeaders
          hasCaption := false
          caption := none
          headers := if hasHeaders then firstRow else []
          sampleData :=
            (rows.drop (if hasHeaders then 1 else 0)).take
              (4 - (if hasHeaders then 1 else 0))
          isDataTable := isDataTable rows
          isLayoutTable := !isDataTable rows
          contextText := getTableContext lines }

/-- TableAccessibilityTool.isComplexTable. -/
def isComplexTable (table : TableInfo) : Bool :=
  table.columns > 5 || table.rows > 10 ||
    table.headers.any fun header =>
      strContains "|".data header || strContains "\t".data header

/-- The pipe/tab table-detection state machine of extractTableInfo; the
invariant `inTable = false → currentTable = []` of the source loop lets
both non-qualifying-line branches reset the state uniformly. -/
def extractTablesGo (allLines : List Str) :
    List (ℕ × Str) → List Str → Bool → ℕ → List TableInfo
  | [], currentTable, inTable, tableCount =>
    if inTable && currentTable.length > 1 then
      match parseTableFromLines currentTable tableCount allLines.length with
      | some t => [t]
      | none => []
    else []
  | (i, line) :: rest, currentTable, inTable, tableCount =>
    if looksLikeTableRow line then
      let ct := if inTable then currentTable ++ [line] else [line]
      extractTablesGo allLines rest ct true tableCount
    else if inTable && currentTable.length > 1 then
      match parseTableFromLines currentTable tableCount i with
      | some t => t :: extractTablesGo allLines rest [] false (tableCount + 1)
      | none => extractTablesGo allLines rest [] false tableCount
    else extractTablesGo allLines rest [] false tableCount

/-- TableAccessibilityTool.extractTableInfo (limited to the first 10
tables). -/
def extractTableInfo (ctx : PdfAnalysisContext) : List TableInfo :=
  let lines := splitOnChar '\n' ctx.textContent
  (extractTablesGo lines lines.enum [] false 0).take 10

/-- The analysis record of analyzeTableStructure. -/
structure TableAnalysis where
  tables : List TableInfo
  totalDataTables : ℕ
  totalLayoutTables : ℕ
  tablesWithoutHeaders : List TableInfo
  tablesWithoutCaptions : List TableInfo
  complexTables : List TableInfo
deriving DecidableEq

/-- TableAccessibilityTool.analyzeTableStructure. -/
def analyzeTableStructure (ctx : PdfAnalysisContext) : TableAnalysis :=
  let tables := extractTableInfo ctx
  { tables := tables
    totalDataTables := (tables.filter (·.isDataTable)).length
    totalLayoutTables := (tables.filter (·.isLayoutTable)).length
    tablesWithoutHeaders := tables.filter fun t => t.isDataTable && !t.hasHeaders
    tablesWithoutCaptions := tables.filter fun t => t.isDataTable && !t.hasCaption
    complexTables := tables.filter isComplexTable }

/-- The missing-headers issue for one table. -/
def tableHeadersIssue (t : TableInfo) : AccessibilityIssue :=
  { type := .table_headers
    severity := .high
    description := "Table ".data ++ natToChars (t.index + 1) ++ " on page ".data ++
      natToChars t.page ++ " lacks proper headers".data
    location := some ("Page ".data ++ natToChars t.page)
    wcagCriteria := ["1.3.1".data]
    suggestion := "Add header row to identify column contents for screen reader users".data }

/-- The missing-caption issue for one table. -/
def tableCaptionIssue (t : TableInfo) : AccessibilityIssue :=
  { type := .table_headers
    severity := .medium
    description := "Table ".data ++ natToChars (t.index + 1) ++ " on page ".data ++
      natToChars t.page ++ " lacks descriptive caption".data
    location := some ("Page ".data ++ natToChars t.page)
    wcagCriteria := ["1.3.1".data, "2.4.6".data]
    suggestion := "Add caption describing the table's purpose and content".data }

/-- The complex-table issue for one table. -/
def tableComplexIssue (t : TableInfo) : AccessibilityIssue :=
  { type := .table_headers
    severity := .medium
    description := "Complex table ".data ++ natToChars (t.index + 1) ++
      " may need additional accessibility markup".data
    location := some ("Page ".data ++ natToChars t.page)
    wcagCriteria := ["1.3.1".data]
    suggestion := "Complex tables may need header associations and summary information".data }

/-- TableAccessibilityTool.identifyTableIssues. -/
def identifyTableIssues (analysis : TableAnalysis) : List AccessibilityIssue :=
  analysis.tablesWithoutHeaders.map tableHeadersIssue ++
    analysis.tablesWithoutCaptions.map tableCaptionIssue ++
    analysis.complexTables.map tableComplexIssue

/-! ## Image-Inference analyzer

From ImageAltTextTool. Math.random() is modelled as an explicit stream
of rationals, consumed in evaluation order: six draws per simulated
image (width, height, x, y, primary-content flag, decorative flag). -/

/-- The global pseudo-random source. -/
abbrev RandStream := ℕ → ℚ

/-- A simulated image record. -/
structure ImageInfo where
  index : ℕ
  page : ℕ
  width : ℚ
  height : ℚ
  posX : ℚ
  posY : ℚ
  contextText : Str
  existingAltText : Option Str
  isPrimaryContent : Bool
  isDecorative : Bool
deriving DecidableEq

/-- The scan of `countWordNum`, fuel-bounded (the fuel is the string
length; every step, matched or not, consumes at least one character). -/
def countWordNumRec (pat : Str) : ℕ → Str → ℕ
  | 0, _ => 0
  | _ + 1, [] => 0
  | fuel + 1, c :: cs =>
    if pat.isPrefixOf (jsToLower (c :: cs)) then
      let rest := (c :: cs).drop pat.length
      let afterWs := rest.dropWhile jsIsWs
      let digits := afterWs.takeWhile Char.isDigit
      if digits.isEmpty then countWordNumRec pat fuel cs
      else 1 + countWordNumRec pat fuel (afterWs.drop digits.length)
    else countWordNumRec pat fuel cs

/-- Non-overlapping count of a /word\s*\d+/gi pattern (the figure and
chart patterns). -/
def countWordNum (pat : Str) (s : Str) : ℕ := countWordNumRec pat s.length s

/-- The sum of the six image-pattern match counts in extractImageInfo. -/
def imagePatternCount (text : Str) : ℕ :=
  countWordNum "figure".data text + countWordNum "chart".data text +
    countCI "diagram".data text + countCI "illustration".data text +
    countCI "photo".data text + countCI "image".data text

/-- ImageAltTextTool.extractContextText. -/
def extractContextText (fullText : Str) (imageIndex : ℕ) : Str :=
  let words := jsSplitWs fullText
  let position := (imageIndex + 1) * words.length / 10
  let start := position - 20
  let stop := min words.length (position + 20)
  List.intercalate [' '] ((words.drop start).take (stop - start))

/-- ImageAltTextTool.extractImageInfo, over the random stream. -/
def extractImageInfo (rand : RandStream) (ctx : PdfAnalysisContext) :
    List ImageInfo :=
  let imageCount := imagePatternCount ctx.textContent
  (List.range (min imageCount 10)).map fun i =>
    { index := i
      page := i / 3 + 1
      width := qadd 400 (qmul (rand (6 * i)) 200)
      height := qadd 300 (qmul (rand (6 * i + 1)) 150)
      posX := qadd 100 (qmul (rand (6 * i + 2)) 300)
      posY := qadd 100 (qmul (rand (6 * i + 3)) 500)
      contextText := extractContextText ctx.textContent i
      existingAltText := none
      isPrimaryContent := rand (6 * i + 4) > Rat.divInt 3 10
      isDecorative := rand (6 * i + 5) > Rat.divInt 8 10 }

/-- ImageAltTextTool.isComplexImage. -/
def isComplexImage (image : ImageInfo) : Bool :=
  qmul image.width image.height > 100000 || qdiv image.width image.height > 3 ||
    qdiv image.width image.height < Rat.divInt 33 100

/-- ImageAltTextTool.analyzeImage. -/
def analyzeImage (image : ImageInfo) : List AccessibilityIssue :=
  (if image.existingAltText.isNone && !image.isDecorative then
    [{ type := .missing_alt_text
       severity := if image.isPrimaryContent then .high else .medium
       description := "Image ".data ++ natToChars (image.index + 1) ++
         " on page ".data ++ natToChars image.page ++
         " lacks alt-text description".data
       location := some ("Page ".data ++ natToChars image.page ++
         ", Position (".data ++ intToChars (jsRound image.posX) ++ ", ".data ++
         intToChars (jsRound image.posY) ++ ")".data)
       wcagCriteria := ["1.1.1".data]
       suggestion :=
         if image.isPrimaryContent then
           "Add descriptive alt-text explaining the content and purpose of this image".data
         else
           "Add brief alt-text or mark as decorative if purely aesthetic".data }]
   else []) ++
  (if image.existingAltText.isSome && image.isDecorative then
    [{ type := .missing_alt_text
       severity := .low
       description := "Image ".data ++ natToChars (image.index + 1) ++
         " appears decorative but has alt-text".data
       location := some ("Page ".data ++ natToChars image.page)
       wcagCriteria := ["1.1.1".data]
       suggestion := "Consider marking decorative images with empty alt-text (alt=\"\")".data }]
   else []) ++
  (if image.isPrimaryContent && isComplexImage image then
    [{ type := .missing_alt_text
       severity := .medium
       description := "Complex image ".data ++ natToChars (image.index + 1) ++
         " may need extended description".data
       location := some ("Page ".data ++ natToChars image.page)
       wcagCriteria := ["1.1.1".data]
       suggestion := "Complex images like charts or diagrams may need detailed descriptions beyond alt-text".data }]
   else [])

/-- ImageAltTextTool.needsAltText. -/
def needsAltText (image : ImageInfo) : Bool :=
  image.existingAltText.isNone && !image.isDecorative && image.isPrimaryContent

/-- ImageAltTextTool.extractKeywords. -/
def extractKeywords (text : Str) : Str :=
  let words := jsSplitWs (jsToLower text)
  let commonWords := ["the".data, "a".data, "an".data, "and".data, "or".data,
    "but".data, "in".data, "on".data, "at".data, "to".data, "for".data,
    "of".data, "with".data, "by".data, "is".data, "are".data, "was".data,
    "were".data, "be".data, "been".data, "being".data, "have".data, "has".data,
    "had".data, "do".data, "does".data, "did".data, "will".data, "would".data,
    "could".data, "should".data]
  let keywords := (words.filter fun word =>
    word.length > 3 && !commonWords.contains word).take 3
  if keywords.length > 0 then List.intercalate ", ".data keywords
  else "document content".data

/-- ImageAltTextTool.mockGenerateAltText. -/
def mockGenerateAltText (image : ImageInfo) : Str :=
  let contextLower := jsToLower image.contextText
  if strContains "chart".data contextLower || strContains "graph".data contextLower then
    "Chart showing data visualization on page ".data ++ natToChars image.page
  else if strContains "diagram".data contextLower || strContains "flow".data contextLower then
    "Diagram illustrating process or concept described in surrounding text".data
  else if strContains "photo".data contextLower || strContains "picture".data contextLower then
    "Photograph related to the content on page ".data ++ natToChars image.page
  else if strContains "logo".data contextLower || strContains "brand".data contextLower then
    "Company or organization logo".data
  else
    "Illustration supporting the content about ".data ++ extractKeywords image.contextText

/-- ImageAltTextTool.generateAltText, whose mock path never fails. The
|| fallback follows JavaScript truthiness (an empty existing alt-text
also falls back). -/
def genAltTextFix (image : ImageInfo) : AccessibilityFix :=
  { type := "alt_text_generation".data
    description := "Generated alt-text for image ".data ++ natToChars (image.index + 1)
    applied := false
    wcagImprovement := ["1.1.1".data]
    beforeValue := some
      (match image.existingAltText with
       | some t => if t.isEmpty then "No alt-text".data else t
       | none => "No alt-text".data)
    afterValue := some (mockGenerateAltText image) }

/-- ImageAltTextTool.execute (elapsed time reported as 0). -/
def imageToolExecute (rand : RandStream) (ctx : PdfAnalysisContext)
    (llm : Bool) : ToolExecutionResult :=
  let images := extractImageInfo rand ctx
  if images.isEmpty then
    { toolName := "image_alttext".data, success := true, issuesFound := [],
      fixesApplied := [], processing_time_ms := 0 }
  else
    { toolName := "image_alttext".data
      success := true
      issuesFound := images.flatMap analyzeImage
      fixesApplied := images.filterMap fun image =>
        if llm && needsAltText image then some (genAltTextFix image) else none
      processing_time_ms := 0 }

/-- The image analyzer as a registered tool. -/
def imageAltTextTool (rand : RandStream) : RegisteredTool :=
  { canProcess := fun ctx => ctx.hasImages
    run := fun ctx llm => .ok (imageToolExecute rand ctx llm) }

/-! ## JavaScript numbers with the IEEE special values

Exact rationals extended with the infinities and NaN, with the IEEE
semantics JavaScript division, multiplication, subtraction and
Math.round follow on them. -/

/-- A JavaScript number: an exact finite value or a special. -/
inductive JsNum where
  | finite (q : ℚ)
  | posInf
  | negInf
  | nan
deriving DecidableEq

/-- Is the number finite? -/
def JsNum.isFinite : JsNum → Bool
  | .finite _ => true
  | _ => false

/-- IEEE subtraction. -/
def jsNumSub : JsNum → JsNum → JsNum
  | .nan, _ => .nan
  | _, .nan => .nan
  | .finite a, .finite b => .finite (qsub a b)
  | .posInf, .posInf => .nan
  | .negInf, .negInf => .nan
  | .posInf, _ => .posInf
  | .negInf, _ => .negInf
  | .finite _, .posInf => .negInf
  | .finite _, .negInf => .posInf

/-- IEEE division (the zero divisor is JavaScript's +0). -/
def jsNumDiv : JsNum → JsNum → JsNum
  | .nan, _ => .nan
  | _, .nan => .nan
  | .finite a, .finite b =>
    if b = 0 then
      if a > 0 then .posInf else if a < 0 then .negInf else .nan
    else .finite (qdiv a b)
  | .finite _, _ => .finite 0
  | .posInf, .posInf => .nan
  | .posInf, .negInf => .nan
  | .negInf, .posInf => .nan
  | .negInf, .negInf => .nan
  | .posInf, .finite b => if b < 0 then .negInf else .posInf
  | .negInf, .finite b => if b < 0 then .posInf else .negInf

/-- IEEE multiplication. -/
def jsNumMul : JsNum → JsNum → JsNum
  | .nan, _ => .nan
  | _, .nan => .nan
  | .finite a, .finite b => .finite (qmul a b)
  | .posInf, .posInf => .posInf
  | .posInf, .negInf => .negInf
  | .negInf, .posInf => .negInf
  | .negInf, .negInf => .posInf
  | .posInf, .finite b => if b = 0 then .nan else if b < 0 then .negInf else .posInf
  | .finite a, .posInf => if a = 0 then .nan else if a < 0 then .negInf else .posInf
  | .negInf, .finite b => if b = 0 then .nan else if b < 0 then .posInf else .negInf
  | .finite a, .negInf => if a = 0 then .nan else if a < 0 then .posInf else .negInf

/-- Math.round over JavaScript numbers: specials pass through. -/
def jsNumRound : JsNum → JsNum
  | .finite q => .finite (jsRound q : ℚ)
  | x => x

/-- A >= comparison against a finite constant (false on NaN). -/
def jsNumGe (x : JsNum) (c : ℚ) : Bool :=
  match x with
  | .finite q => q ≥ c
  | .posInf => true
  | _ => false

/-- JavaScript number-to-string for template literals (integral finite
values and the specials; every interpolated score is integral). -/
def jsNumToStr : JsNum → Str
  | .finite q => intToChars q.num
  | .posInf => "Infinity".data
  | .negInf => "-Infinity".data
  | .nan => "NaN".data

/-! ## Advanced reporting engine

From AdvancedReportingEngine (generateAuditReport, exportReport and the
per-format renderers). -/

/-- Math.round(((afterScore - beforeScore) / beforeScore) * 100), with
the IEEE behaviour on a zero beforeScore. -/
def improvementPercentage (beforeScore afterScore : JsNum) : JsNum :=
  jsNumRound (jsNumMul (jsNumDiv (jsNumSub afterScore beforeScore) beforeScore)
    (.finite 100))

/-- AdvancedReportingEngine.determineComplianceStatus (90 / 70
thresholds). -/
def determineComplianceStatus (score : JsNum) : Str :=
  if jsNumGe score 90 then "compliant".data
  else if jsNumGe score 70 then "partial".data
  else "non_compliant".data

/-- The executive_summary block. -/
structure ExecutiveSummary where
  document_name : Str
  audit_date : Str
  wcag_level : Str
  overall_score : JsNum
  total_issues : ℕ
  total_fixes : ℕ
  compliance_status : Str
deriving DecidableEq

/-- The file_info block. -/
structure FileInfo where
  name : Str
  size : ℤ
  pages : ℤ
  language : Str
deriving DecidableEq

/-- The content_analysis block. -/
structure ContentAnalysis where
  has_images : Bool
  has_tables : Bool
  has_links : Bool
  text_length : ℤ
deriving DecidableEq

/-- The document_analysis block. -/
structure DocumentAnalysis where
  file_info : FileInfo
  content_analysis : ContentAnalysis
deriving DecidableEq

/-- The issues_by_severity block. -/
structure IssuesBySeverity where
  critical : List AccessibilityIssue
  high : List AccessibilityIssue
  medium : List AccessibilityIssue
  low : List AccessibilityIssue
deriving DecidableEq

/-- One WCAG level bucket (key order total, failed, passed as in the
source literal). -/
structure WcagBucket where
  total : ℕ
  failed : ℕ
  passed : ℕ
deriving DecidableEq

/-- The wcag_compliance block. -/
structure WcagCompliance where
  level_a : WcagBucket
  level_aa : WcagBucket
  level_aaa : WcagBucket
deriving DecidableEq

/-- The accessibility_findings block. -/
structure AccessibilityFindings where
  issues_by_severity : IssuesBySeverity
  wcag_compliance : WcagCompliance
deriving DecidableEq

/-- The before_after_comparison block. -/
structure BeforeAfterComparison where
  before_score : JsNum
  after_score : JsNum
  improvement_percentage : JsNum
deriving DecidableEq

/-- The improvements_applied block; fixes_by_type is the
insertion-ordered record of groupFixesByType. -/
structure ImprovementsApplied where
  fixes_by_type : List (Str × List AccessibilityFix)
  before_after_comparison : BeforeAfterComparison
deriving DecidableEq

/-- The recommendations block. -/
structure ReportRecommendations where
  immediate_actions : List Str
  long_term_improvements : List Str
  best_practices : List Str
deriving DecidableEq

/-- The export_formats block. -/
structure ExportFormatsBlock where
  json : Str
  html : Str
  markdown : Str
  csv : Str
deriving DecidableEq

/-- AccessibilityAuditReport. -/
structure AccessibilityAuditReport where
  executive_summary : ExecutiveSummary
  document_analysis : DocumentAnalysis
  accessibility_findings : AccessibilityFindings
  improvements_applied : ImprovementsApplied
  tool_execution_details : List ToolExecutionResult
  recommendations : ReportRecommendations
  export_formats : ExportFormatsBlock
deriving DecidableEq

/-- The documentInfo argument (a loosely-typed record in the source;
absent properties are `none` and fall back through the || defaults). -/
structure DocumentInfo where
  fileName : Str
  fileSize : Option ℤ := none
  pageCount : Option ℤ := none
  language : Option Str := none
  hasImages : Option Bool := none
  hasTables : Option Bool := none
  hasLinks : Option Bool := none
  textLength : Option ℤ := none

/-- AdvancedReportingEngine.groupIssuesBySeverity. -/
def groupIssuesBySeverity (issues : List AccessibilityIssue) : IssuesBySeverity :=
  { critical := issues.filter fun i => i.severity = .critical
    high := issues.filter fun i => i.severity = .high
    medium := issues.filter fun i => i.severity = .medium
    low := issues.filter fun i => i.severity = .low }

/-- Appending one fix into the insertion-ordered record. -/
def addFixByType : List (Str × List AccessibilityFix) → AccessibilityFix →
    List (Str × List AccessibilityFix)
  | [], f => [(f.type, [f])]
  | (k, l) :: rest, f =>
    if k = f.type then (k, l ++ [f]) :: rest else (k, l) :: addFixByType rest f

/-- AdvancedReportingEngine.groupFixesByType. -/
def groupFixesByType (fixes : List AccessibilityFix) :
    List (Str × List AccessibilityFix) :=
  fixes.foldl addFixByType []

/-- The fixed Level A / AA / AAA criteria lists of
calculateWCAGCompliance. -/
def levelACriteria : List Str :=
  ["1.1.1".data, "1.3.1".data, "2.4.1".data, "2.4.4".data, "3.1.1".data]

/-- Level AA criteria. -/
def levelAACriteria : List Str := ["2.4.6".data, "3.1.2".data, "3.2.4".data]

/-- Level AAA criteria. -/
def levelAAACriteria : List Str := ["2.4.9".data, "2.4.10".data]

/-- One bucket of calculateWCAGCompliance. -/
def wcagBucket (criteria : List Str) (failedCriteria : List Str) : WcagBucket :=
  { total := criteria.length
    failed := (criteria.filter fun c => failedCriteria.contains c).length
    passed := criteria.length -
      (criteria.filter fun c => failedCriteria.contains c).length }

/-- AdvancedReportingEngine.calculateWCAGCompliance. -/
def calculateWCAGCompliance (issues : List AccessibilityIssue) : WcagCompliance :=
  let failedCriteria := issues.flatMap (·.wcagCriteria)
  { level_a := wcagBucket levelACriteria failedCriteria
    level_aa := wcagBucket levelAACriteria failedCriteria
    level_aaa := wcagBucket levelAAACriteria failedCriteria }

/-- AdvancedReportingEngine.generateRecommendations. -/
def generateRecommendations (issues : List AccessibilityIssue)
    (wcagLevel : Str) : ReportRecommendations :=
  let critical := issues.filter fun i => i.severity = .critical
  let high := issues.filter fun i => i.severity = .high
  { immediate_actions :=
      critical.map (·.suggestion) ++ (high.take 3).map (·.suggestion)
    long_term_improvements :=
      ["Implement accessibility testing in development workflow".data,
       "Train content creators on WCAG guidelines".data,
       "Regular accessibility audits for all documents".data]
    best_practices :=
      ["Use semantic HTML structure in source documents".data,
       "Provide meaningful alt-text for all images".data,
       "Ensure proper heading hierarchy".data,
       "Test with screen readers and assistive technologies".data,
       "Maintain ".data ++ wcagLevel ++
         " compliance standards across all documents".data] }

/-- AdvancedReportingEngine.generateExportFormats (fixed strings). -/
def generateExportFormats : ExportFormatsBlock :=
  { json := "Full JSON report available for API integration".data
    html := "Professional HTML report suitable for stakeholder presentation".data
    markdown := "Markdown format for documentation and version control".data
    csv := "CSV format for data analysis and tracking".data }

/-- AdvancedReportingEngine.generateAuditReport. `auditDate` carries the
new Date().toISOString() value, supplied by the environment. -/
def generateAuditReport (toolResults : List ToolExecutionResult)
    (documentInfo : DocumentInfo) (wcagLevel : Str)
    (beforeScore afterScore : JsNum) (auditDate : Str) :
    AccessibilityAuditReport :=
  let issues := allIssues toolResults
  let fixes := allFixes toolResults
  { executive_summary :=
      { document_name := documentInfo.fileName
        audit_date := auditDate
        wcag_level := wcagLevel
        overall_score := afterScore
        total_issues := issues.length
        total_fixes := (fixes.filter (·.applied)).length
        compliance_status := determineComplianceStatus afterScore }
    document_analysis :=
      { file_info :=
          { name := documentInfo.fileName
            size := documentInfo.fileSize.getD 0
            pages := documentInfo.pageCount.getD 0
            language :=
              match documentInfo.language with
              | some l => if l.isEmpty then "unknown".data else l
              | none => "unknown".data }
        content_analysis :=
          { has_images := documentInfo.hasImages.getD false
            has_tables := documentInfo.hasTables.getD false
            has_links := documentInfo.hasLinks.getD false
            text_length := documentInfo.textLength.getD 0 } }
    accessibility_findings :=
      { issues_by_severity := groupIssuesBySeverity issues
        wcag_compliance := calculateWCAGCompliance issues }
    improvements_applied :=
      { fixes_by_type := groupFixesByType fixes
        before_after_comparison :=
          { before_score := beforeScore
            after_score := afterScore
            improvement_percentage := improvementPercentage beforeScore afterScore } }
    tool_execution_details := toolResults
    recommendations := generateRecommendations issues wcagLevel
    export_formats := generateExportFormats }

/-! ## JSON

A JSON value tree, the serialization JSON.stringify(value, null, 2)
performs (two-space indentation), and a JSON.parse model, with a
round-trip theorem. -/

/-- A JSON value. Object fields keep their insertion order. -/
inductive JsonVal where
  | null
  | bool (b : Bool)
  | num (q : ℚ)
  | str (s : Str)
  | arr (items : List JsonVal)
  | obj (fields : List (Str × JsonVal))

/-- A lower-case hexadecimal digit. -/
def hexDigit (n : ℕ) : Char :=
  if n < 10 then Char.ofNat (48 + n) else Char.ofNat (87 + n)

/-- JSON.stringify's escaping of one string character. -/
def escapeChar (c : Char) : Str :=
  if c = '"' then ['\\', '"']
  else if c = '\\' then ['\\', '\\']
  else if c = '\n' then ['\\', 'n']
  else if c = '\x0d' then ['\\', 'r']
  else if c = '\t' then ['\\', 't']
  else if c = '\x08' then ['\\', 'b']
  else if c = '\x0c' then ['\\', 'f']
  else if c.toNat < 32 then
    ['\\', 'u', '0', '0', hexDigit (c.toNat / 16), hexDigit (c.toNat % 16)]
  else [c]

/-- JSON string-body escaping. -/
def escapeStr (s : Str) : Str := s.flatMap escapeChar

/-- A quoted, escaped JSON string. -/
def quoteStr (s : Str) : Str := '"' :: escapeStr s ++ ['"']

/-- Serialization of a number. Every number a report contains is an
integral rational (the specials print as null before this point), so
only the integral case arises. -/
def numToChars (q : ℚ) : Str := intToChars q.num

/-- An indentation run. -/
def ind (d : ℕ) : Str := List.replicate d ' '

mutual

/-- JSON.stringify(v, null, 2) at nesting indentation `d`. -/
def strInd : JsonVal → ℕ → Str
  | .null, _ => "null".data
  | .bool true, _ => "true".data
  | .bool false, _ => "false".data
  | .num q, _ => numToChars q
  | .str s, _ => quoteStr s
  | .arr [], _ => ['[', ']']
  | .arr (x :: xs), d => '[' :: (itemsInd x xs d ++ '\n' :: ind d ++ [']'])
  | .obj [], _ => ['{', '}']
  | .obj (f :: fs), d => '{' :: (fieldsInd f fs d ++ '\n' :: ind d ++ ['}'])
termination_by v _ => sizeOf v

/-- The ",\n"-joined, indented serialization of array items. -/
def itemsInd : JsonVal → List JsonVal → ℕ → Str
  | x, [], d => '\n' :: (ind (d + 2) ++ strInd x (d + 2))
  | x, y :: ys, d =>
    '\n' :: (ind (d + 2) ++ (strInd x (d + 2) ++ (',' :: itemsInd y ys d)))
termination_by x xs _ => sizeOf x + sizeOf xs
decreasing_by
  · simp_arith
  · simp_arith
  · simp_arith

/-- The ",\n"-joined, indented serialization of object fields. -/
def fieldsInd : Str × JsonVal → List (Str × JsonVal) → ℕ → Str
  | (k, v), [], d =>
    '\n' :: (ind (d + 2) ++ (quoteStr k ++ ':' :: ' ' :: strInd v (d + 2)))
  | (k, v), g :: gs, d =>
    '\n' :: (ind (d + 2) ++
      (quoteStr k ++ ':' :: ' ' :: (strInd v (d + 2) ++ (',' :: fieldsInd g gs d))))
termination_by f fs _ => sizeOf f + sizeOf fs
decreasing_by
  · simp_arith
  · simp_arith
  · simp_arith

end

/-- JSON.stringify(v, null, 2). -/
def jsonStringify (v : JsonVal) : Str := strInd v 0

/-- Severity names as serialized. -/
def severityToStr : Severity → Str
  | .low => "low".data
  | .medium => "medium".data
  | .high => "high".data
  | .critical => "critical".data

/-- Issue-category names as serialized. -/
def issueTypeToStr : IssueType → Str
  | .missing_alt_text => "missing_alt_text".data
  | .heading_structure => "heading_structure".data
  | .table_headers => "table_headers".data
  | .link_text => "link_text".data
  | .metadata => "metadata".data
  | .reading_order => "reading_order".data
  | .color_contrast => "color_contrast".data

/-- The JSON tree JSON.stringify builds for one issue (an undefined
location is omitted). -/
def issueToJson (i : AccessibilityIssue) : JsonVal :=
  .obj ([("type".data, .str (issueTypeToStr i.type)),
         ("severity".data, .str (severityToStr i.severity)),
         ("description".data, .str i.description)] ++
    (match i.location with
     | some l => [("location".data, .str l)]
     | none => []) ++
    [("wcagCriteria".data, .arr (i.wcagCriteria.map .str)),
     ("suggestion".data, .str i.suggestion)])

/-- The JSON tree for one fix (absent before/after values are omitted). -/
def fixToJson (f : AccessibilityFix) : JsonVal :=
  .obj ([("type".data, .str f.type),
         ("description".data, .str f.description),
         ("applied".data, .bool f.applied),
         ("wcagImprovement".data, .arr (f.wcagImprovement.map .str))] ++
    (match f.beforeValue with
     | some v => [("beforeValue".data, .str v)]
     | none => []) ++
    (match f.afterValue with
     | some v => [("afterValue".data, .str v)]
     | none => []))

/-- The JSON tree for one tool envelope (an absent error is omitted). -/
def toolResultToJson (r : ToolExecutionResult) : JsonVal :=
  .obj ([("toolName".data, .str r.toolName),
         ("success".data, .bool r.success),
         ("issuesFound".data, .arr (r.issuesFound.map issueToJson)),
         ("fixesApplied".data, .arr (r.fixesApplied.map fixToJson)),
         ("processing_time_ms".data, .num r.processing_time_ms)] ++
    (match r.error with
     | some e => [("error".data, .str e)]
     | none => []))

/-- JSON.stringify renders the IEEE specials as null. -/
def jsNumToJson : JsNum → JsonVal
  | .finite q => .num q
  | _ => .null

/-- A WCAG bucket as JSON (key order of the source literal). -/
def wcagBucketToJson (b : WcagBucket) : JsonVal :=
  .obj [("total".data, .num b.total),
        ("failed".data, .num b.failed),
        ("passed".data, .num b.passed)]

/-- The JSON tree of the whole audit report, keys in the creation order
of the source object literals. -/
def reportToJson (r : AccessibilityAuditReport) : JsonVal :=
  .obj
    [("executive_summary".data, .obj
       [("document_name".data, .str r.executive_summary.document_name),
        ("audit_date".data, .str r.executive_summary.audit_date),
        ("wcag_level".data, .str r.executive_summary.wcag_level),
        ("overall_score".data, jsNumToJson r.executive_summary.overall_score),
        ("total_issues".data, .num r.executive_summary.total_issues),
        ("total_fixes".data, .num r.executive_summary.total_fixes),
        ("compliance_status".data, .str r.executive_summary.compliance_status)]),
     ("document_analysis".data, .obj
       [("file_info".data, .obj
          [("name".data, .str r.document_analysis.file_info.name),
           ("size".data, .num r.document_analysis.file_info.size),
           ("pages".data, .num r.document_analysis.file_info.pages),
           ("language".data, .str r.document_analysis.file_info.language)]),
        ("content_analysis".data, .obj
          [("has_images".data, .bool r.document_analysis.content_analysis.has_images),
           ("has_tables".data, .bool r.document_analysis.content_analysis.has_tables),
           ("has_links".data, .bool r.document_analysis.content_analysis.has_links),
           ("text_length".data, .num r.document_analysis.content_analysis.text_length)])]),
     ("accessibility_findings".data, .obj
       [("issues_by_severity".data, .obj
          [("critical".data, .arr
             (r.accessibility_findings.issues_by_severity.critical.map issueToJson)),
           ("high".data, .arr
             (r.accessibility_findings.issues_by_severity.high.map issueToJson)),
           ("medium".data, .arr
             (r.accessibility_findings.issues_by_severity.medium.map issueToJson)),
           ("low".data, .arr
             (r.accessibility_findings.issues_by_severity.low.map issueToJson))]),
        ("wcag_compliance".data, .obj
          [("level_a".data,
             wcagBucketToJson r.accessibility_findings.wcag_compliance.level_a),
           ("level_aa".data,
             wcagBucketToJson r.accessibility_findings.wcag_compliance.level_aa),
           ("level_aaa".data,
             wcagBucketToJson r.accessibility_findings.wcag_compliance.level_aaa)])]),
     ("improvements_applied".data, .obj
       [("fixes_by_type".data, .obj
          (r.improvements_applied.fixes_by_type.map fun kv =>
            (kv.1, .arr (kv.2.map fixToJson)))),
        ("before_after_comparison".data, .obj
          [("before_score".data,
             jsNumToJson r.improvements_applied.before_after_comparison.before_score),
           ("after_score".data,
             jsNumToJson r.improvements_applied.before_after_comparison.after_score),
           ("improvement_percentage".data,
             jsNumToJson
               r.improvements_applied.before_after_comparison.improvement_percentage)])]),
     ("tool_execution_details".data,
       .arr (r.tool_execution_details.map toolResultToJson)),
     ("recommendations".data, .obj
       [("immediate_actions".data,
          .arr (r.recommendations.immediate_actions.map .str)),
        ("long_term_improvements".data,
          .arr (r.recommendations.long_term_improvements.map .str)),
        ("best_practices".data,
          .arr (r.recommendations.best_practices.map .str))]),
     ("export_formats".data, .obj
       [("json".data, .str r.export_formats.json),
        ("html".data, .str r.export_formats.html),
        ("markdown".data, .str r.export_formats.markdown),
        ("csv".data, .str r.export_formats.csv)])]

/-- The locale-dependent rendering of the audit date in the HTML export
(new Date(...).toLocaleDateString()); modelled as the identity, no claim
touches the HTML rendering of the date. -/
def jsToLocaleDateString (s : Str) : Str := s

/-- AdvancedReportingEngine.generateHTMLReport (braces of the embedded
CSS written as \x7b and \x7d). -/
def generateHTMLReport (report : AccessibilityAuditReport) : Str :=
  "\n<!DOCTYPE html>\n<html lang=\"en\">\n<head>\n    <meta charset=\"UTF-8\">\n    <title>PDF Accessibility Audit Report</title>\n    <style>\n        body \x7b font-family: Arial, sans-serif; margin: 20px; \x7d\n        .header \x7b background: #f4f4f4; padding: 20px; border-radius: 5px; \x7d\n        .score \x7b font-size: 2em; color: ".data ++
  (if jsNumGe report.executive_summary.overall_score 80 then "#28a745".data
   else "#dc3545".data) ++
  "; \x7d\n        .section \x7b margin: 20px 0; \x7d\n        .issue \x7b background: #fff3cd; padding: 10px; margin: 5px 0; border-left: 4px solid #ffc107; \x7d\n        .fix \x7b background: #d4edda; padding: 10px; margin: 5px 0; border-left: 4px solid #28a745; \x7d\n    </style>\n</head>\n<body>\n    <div class=\"header\">\n        <h1>PDF Accessibility Audit Report</h1>\n        <p><strong>Document:</strong> ".data ++
  report.executive_summary.document_name ++
  "</p>\n        <p><strong>WCAG Level:</strong> ".data ++
  report.executive_summary.wcag_level ++
  "</p>\n        <p><strong>Overall Score:</strong> <span class=\"score\">".data ++
  jsNumToStr report.executive_summary.overall_score ++
  "%</span></p>\n        <p><strong>Compliance Status:</strong> ".data ++
  report.executive_summary.compliance_status ++
  "</p>\n    </div>\n\n    <div class=\"section\">\n        <h2>Executive Summary</h2>\n        <ul>\n            <li>Total Issues Found: ".data ++
  natToChars report.executive_summary.total_issues ++
  "</li>\n            <li>Total Fixes Applied: ".data ++
  natToChars report.executive_summary.total_fixes ++
  "</li>\n            <li>Audit Date: ".data ++
  jsToLocaleDateString report.executive_summary.audit_date ++
  "</li>\n        </ul>\n    </div>\n\n    <div class=\"section\">\n        <h2>Recommendations</h2>\n        <h3>Immediate Actions</h3>\n        <ul>\n            ".data ++
  List.intercalate [] (report.recommendations.immediate_actions.map fun action =>
    "<li>".data ++ action ++ "</li>".data) ++
  "\n        </ul>\n    </div>\n</body>\n</html>".data

/-- AdvancedReportingEngine.generateMarkdownReport. -/
def generateMarkdownReport (report : AccessibilityAuditReport) : Str :=
  "\n# PDF Accessibility Audit Report\n\n## Executive Summary\n\n- **Document:** ".data ++
  report.executive_summary.document_name ++
  "\n- **WCAG Level:** ".data ++ report.executive_summary.wcag_level ++
  "\n- **Overall Score:** ".data ++
  jsNumToStr report.executive_summary.overall_score ++
  "%\n- **Compliance Status:** ".data ++
  report.executive_summary.compliance_status ++
  "\n- **Total Issues:** ".data ++
  natToChars report.executive_summary.total_issues ++
  "\n- **Total Fixes:** ".data ++
  natToChars report.executive_summary.total_fixes ++
  "\n\n## Document Analysis\n\n- **File Size:** ".data ++
  intToChars report.document_analysis.file_info.size ++
  " bytes\n- **Pages:** ".data ++
  intToChars report.document_analysis.file_info.pages ++
  "\n- **Language:** ".data ++
  report.document_analysis.file_info.language ++
  "\n\n## Immediate Actions Required\n\n".data ++
  List.intercalate "\n".data (report.recommendations.immediate_actions.map fun a =>
    "- ".data ++ a) ++
  "\n\n## Best Practices\n\n".data ++
  List.intercalate "\n".data (report.recommendations.best_practices.map fun p =>
    "- ".data ++ p) ++
  "\n".data

/-- One CSV issue row ([type, severity, quoted description, criteria
joined by semicolons, Issue].join(',')). -/
def csvIssueRow (severityKey : Str) (issue : AccessibilityIssue) : Str :=
  issueTypeToStr issue.type ++ ",".data ++ severityKey ++ ",\"".data ++
    issue.description ++ "\",".data ++
    List.intercalate ";".data issue.wcagCriteria ++ ",Issue".data

/-- One CSV fix row. -/
def csvFixRow (fix : AccessibilityFix) : Str :=
  fix.type ++ ",N/A,\"".data ++ fix.description ++ "\",".data ++
    List.intercalate ";".data fix.wcagImprovement ++
    (if fix.applied then ",Fixed".data else ",Pending".data)

/-- AdvancedReportingEngine.generateCSVReport. -/
def generateCSVReport (report : AccessibilityAuditReport) : Str :=
  let headers := "Category,Severity,Description,WCAG Criteria,Status".data
  let issueRows :=
    (report.accessibility_findings.issues_by_severity.critical.map
      (csvIssueRow "critical".data)) ++
    (report.accessibility_findings.issues_by_severity.high.map
      (csvIssueRow "high".data)) ++
    (report.accessibility_findings.issues_by_severity.medium.map
      (csvIssueRow "medium".data)) ++
    (report.accessibility_findings.issues_by_severity.low.map
      (csvIssueRow "low".data))
  let fixRows :=
    (List.intercalate [] (report.improvements_applied.fixes_by_type.map
      Prod.snd)).map csvFixRow
  List.intercalate "\n".data (headers :: (issueRows ++ fixRows))

/-- The export formats. -/
inductive ExportFormat where
  | json | html | markdown | csv
deriving DecidableEq

/-- AdvancedReportingEngine.exportReport. -/
def exportReport (report : AccessibilityAuditReport) : ExportFormat → Str
  | .json => jsonStringify (reportToJson report)
  | .html => generateHTMLReport report
  | .markdown => generateMarkdownReport report
  | .csv => generateCSVReport report

/-! ### A JSON.parse model -/

/-- The JSON whitespace characters. -/
def jsonWsChar (c : Char) : Bool :=
  c = ' ' || c = '\t' || c = '\n' || c = '\x0d'

/-- Skip insignificant whitespace. -/
def skipJsonWs (s : Str) : Str := s.dropWhile jsonWsChar

/-- The value of one hexadecimal digit. -/
def hexVal (c : Char) : Option ℕ :=
  if '0' ≤ c ∧ c ≤ '9' then some (c.toNat - 48)
  else if 'a' ≤ c ∧ c ≤ 'f' then some (c.toNat - 87)
  else if 'A' ≤ c ∧ c ≤ 'F' then some (c.toNat - 55)
  else none

/-- Does the string start with this character? -/
def headIs (c : Char) : Str → Bool
  | d :: _ => d = c
  | [] => false

/-- Prepend a character to the parsed part of a parser result. -/
def consResult (c : Char) : Option (Str × Str) → Option (Str × Str)
  | some (s, t) => some (c :: s, t)
  | none => none

mutual

/-- Parse a JSON string body after the opening quote, undoing the
escapes. A \u escape must denote a Unicode scalar value (the JavaScript
surrogate-pair subtleties never arise for serialized output). -/
def parseStrBody : Str → Option (Str × Str)
  | [] => none
  | c :: rest =>
    if c = '"' then some ([], rest)
    else if c = '\\' then parseEscape rest
    else if c.toNat ≥ 32 then consResult c (parseStrBody rest)
    else none

/-- Parse one escape sequence after the backslash, then the remainder of
the string body. -/
def parseEscape : Str → Option (Str × Str)
  | [] => none
  | c :: r =>
    if c = '"' then consResult '"' (parseStrBody r)
    else if c = '\\' then consResult '\\' (parseStrBody r)
    else if c = '/' then consResult '/' (parseStrBody r)
    else if c = 'n' then consResult '\n' (parseStrBody r)
    else if c = 'r' then consResult '\x0d' (parseStrBody r)
    else if c = 't' then consResult '\t' (parseStrBody r)
    else if c = 'b' then consResult '\x08' (parseStrBody r)
    else if c = 'f' then consResult '\x0c' (parseStrBody r)
    else if c = 'u' then parseHex4 r
    else none

/-- Parse the four hexadecimal digits of a \u escape, then the remainder
of the string body. -/
def parseHex4 : Str → Option (Str × Str)
  | h1 :: h2 :: h3 :: h4 :: r =>
    match hexVal h1, hexVal h2, hexVal h3, hexVal h4 with
    | some a, some b, some c, some d =>
      let n := ((a * 16 + b) * 16 + c) * 16 + d
      if Nat.isValidChar n then consResult (Char.ofNat n) (parseStrBody r)
      else none
    | _, _, _, _ => none
  | _ => none

end

/-- The value of a digit run. -/
def digitsVal (ds : Str) : ℕ :=
  ds.foldl (fun acc c => 10 * acc + (c.toNat - 48)) 0

/-- The exponent digits (with optional sign) after an e or E. -/
def parseExpDigits (base : ℚ) (s : Str) : Option (ℚ × Str) :=
  let eneg := headIs '-' s
  let s1 := if headIs '-' s || headIs '+' s then s.tail else s
  let es := s1.takeWhile Char.isDigit
  if es.isEmpty then none
  else
    some (if eneg then base / 10 ^ digitsVal es else base * 10 ^ digitsVal es,
      s1.dropWhile Char.isDigit)

/-- The optional exponent part of a JSON number. -/
def parseExpTail (base : ℚ) (s : Str) : Option (ℚ × Str) :=
  if headIs 'e' s || headIs 'E' s then parseExpDigits base s.tail
  else some (base, s)

/-- The optional fraction part, then the exponent part. -/
def parseFracTail (intPart : ℚ) (neg : Bool) (s2 : Str) : Option (ℚ × Str) :=
  if headIs '.' s2 then
    let r := s2.tail
    let fs := r.takeWhile Char.isDigit
    if fs.isEmpty then none
    else
      let mag := intPart + (digitsVal fs : ℚ) / (10 ^ fs.length : ℚ)
      parseExpTail (if neg then -mag else mag) (r.dropWhile Char.isDigit)
  else parseExpTail (if neg then -intPart else intPart) s2

/-- Parse a JSON number. -/
def parseNumber (s : Str) : Option (ℚ × Str) :=
  let neg := headIs '-' s
  let s1 := if neg then s.tail else s
  let ds := s1.takeWhile Char.isDigit
  if ds.isEmpty then none
  else parseFracTail (digitsVal ds) neg (s1.dropWhile Char.isDigit)

mutual

/-- Parse one JSON value (fuel-bounded recursion). -/
def parseVal : ℕ → Str → Option (JsonVal × Str)
  | 0, _ => none
  | fuel + 1, s =>
    match skipJsonWs s with
    | [] => none
    | c :: cs =>
      if c = 'n' then
        if "ull".data.isPrefixOf cs then some (.null, cs.drop 3) else none
      else if c = 't' then
        if "rue".data.isPrefixOf cs then some (.bool true, cs.drop 3) else none
      else if c = 'f' then
        if "alse".data.isPrefixOf cs then some (.bool false, cs.drop 4) else none
      else if c = '"' then
        match parseStrBody cs with
        | some (body, rest) => some (.str body, rest)
        | none => none
      else if c = '[' then
        if headIs ']' (skipJsonWs cs) then some (.arr [], (skipJsonWs cs).tail)
        else
          match parseItems fuel cs with
          | some (items, rest) => some (.arr items, rest)
          | none => none
      else if c = '{' then
        if headIs '}' (skipJsonWs cs) then some (.obj [], (skipJsonWs cs).tail)
        else
          match parseFields fuel cs with
          | some (fields, rest) => some (.obj fields, rest)
          | none => none
      else
        match parseNumber (c :: cs) with
        | some (q, rest) => some (.num q, rest)
        | none => none

/-- Parse the items of a non-empty array, consuming the closing
bracket. -/
def parseItems : ℕ → Str → Option (List JsonVal × Str)
  | 0, _ => none
  | fuel + 1, s =>
    match parseVal fuel s with
    | some (v, s1) =>
      if headIs ',' (skipJsonWs s1) then
        match parseItems fuel ((skipJsonWs s1).tail) with
        | some (vs, s3) => some (v :: vs, s3)
        | none => none
      else if headIs ']' (skipJsonWs s1) then some ([v], (skipJsonWs s1).tail)
      else none
    | none => none

/-- Parse the fields of a non-empty object, consuming the closing
brace. -/
def parseFields : ℕ → Str → Option (List (Str × JsonVal) × Str)
  | 0, _ => none
  | fuel + 1, s =>
    if headIs '"' (skipJsonWs s) then
      match parseStrBody ((skipJsonWs s).tail) with
      | some (k, s2) =>
        if headIs ':' (skipJsonWs s2) then
          match parseVal fuel ((skipJsonWs s2).tail) with
          | some (v, s4) =>
            if headIs ',' (skipJsonWs s4) then
              match parseFields fuel ((skipJsonWs s4).tail) with
              | some (fs, s6) => some ((k, v) :: fs, s6)
              | none => none
            else if headIs '}' (skipJsonWs s4) then
              some ([(k, v)], (skipJsonWs s4).tail)
            else none
          | none => none
        else none
      | none => none
    else none

end

/-- JSON.parse: a value followed by nothing but whitespace. -/
def jsonParse (s : Str) : Option JsonVal :=
  match parseVal (s.length + 1) s with
  | some (v, rest) => if (skipJsonWs rest).isEmpty then some v else none
  | none => none

/-- Field lookup in a parsed object. -/
def jsonGet (key : Str) : JsonVal → Option JsonVal
  | .obj fields => fields.lookup key
  | _ => none

/-! ### Round-trip: JSON.parse of JSON.stringify

Every number a report serializes is an integral rational (`jsonIntish`),
and on such trees parsing inverts the indented serialization. -/

mutual

/-- All numbers in the tree are integral rationals. -/
def jsonIntish : JsonVal → Bool
  | .null => true
  | .bool _ => true
  | .str _ => true
  | .num q => q.den = 1
  | .arr items => jsonIntishList items
  | .obj fields => jsonIntishFields fields

/-- `jsonIntish` over a list of values. -/
def jsonIntishList : List JsonVal → Bool
  | [] => true
  | x :: xs => jsonIntish x && jsonIntishList xs

/-- `jsonIntish` over object fields. -/
def jsonIntishFields : List (Str × JsonVal) → Bool
  | [] => true
  | (_, v) :: fs => jsonIntish v && jsonIntishFields fs

end

theorem char_toNat_ofNat (n : ℕ) (h : Nat.isValidChar n) :
    (Char.ofNat n).toNat = n := by
  simp [Char.ofNat, Char.toNat, Char.ofNatAux, h, UInt32.toNat, BitVec.toNat_ofNatLt]

theorem isDigit_ofNat48 (r : ℕ) (h : r < 10) :
    (Char.ofNat (48 + r)).isDigit = true := by
  interval_cases r <;> decide

theorem toNat_ofNat48 (r : ℕ) (h : r < 10) : (Char.ofNat (48 + r)).toNat = 48 + r :=
  char_toNat_ofNat _ (Or.inl (by omega))

theorem natToChars_ne_nil (n : ℕ) : natToChars n ≠ [] := by
  rw [natToChars_unfold]
  split <;> simp

theorem digitsVal_append_one (a : Str) (c : Char) :
    digitsVal (a ++ [c]) = 10 * digitsVal a + (c.toNat - 48) := by
  simp [digitsVal, List.foldl_append]

theorem natToChars_spec (n : ℕ) :
    (∀ c ∈ natToChars n, c.isDigit = true) ∧ digitsVal (natToChars n) = n := by
  induction n using Nat.strong_induction_on with
  | _ n ih =>
    rw [natToChars_unfold]
    by_cases h : n < 10
    · simp only [h, if_true]
      constructor
      · intro c hc
        simp only [List.mem_singleton] at hc
        exact hc ▸ isDigit_ofNat48 n h
      · simp [digitsVal, toNat_ofNat48 n h]
    · simp only [h, if_false]
      have hdiv : n / 10 < n := Nat.div_lt_self (by omega) (by omega)
      obtain ⟨ihd, ihv⟩ := ih (n / 10) hdiv
      constructor
      · intro c hc
        rcases List.mem_append.mp hc with hc | hc
        · exact ihd c hc
        · simp only [List.mem_singleton] at hc
          exact hc ▸ isDigit_ofNat48 (n % 10) (Nat.mod_lt _ (by omega))
      · rw [digitsVal_append_one, ihv, toNat_ofNat48 (n % 10) (Nat.mod_lt _ (by omega))]
        omega

theorem hexVal_hexDigit (x : ℕ) (h : x < 16) : hexVal (hexDigit x) = some x := by
  interval_cases x <;> decide

theorem ne_of_digit {c x : Char} (h : c.isDigit = true) (hx : x.isDigit = false) :
    c ≠ x := by
  intro he
  subst he
  simp [h] at hx

theorem jsonWsChar_false_of_digit {c : Char} (h : c.isDigit = true) :
    jsonWsChar c = false := by
  have h1 : c ≠ ' ' := ne_of_digit h (by decide)
  have h2 : c ≠ '\t' := ne_of_digit h (by decide)
  have h3 : c ≠ '\n' := ne_of_digit h (by decide)
  have h4 : c ≠ '\x0d' := ne_of_digit h (by decide)
  simp [jsonWsChar, h1, h2, h3, h4]

theorem takeWhile_append_of {p : Char → Bool} (ds rest : Str)
    (hall : ∀ c ∈ ds, p c = true)
    (hrest : ∀ c, rest.head? = some c → p c = false) :
    (ds ++ rest).takeWhile p = ds ∧ (ds ++ rest).dropWhile p = rest := by
  induction ds with
  | nil =>
    cases rest with
    | nil => simp
    | cons c t =>
      have := hrest c rfl
      simp [List.takeWhile, List.dropWhile, this]
  | cons d ds ih =>
    have hd : p d = true := hall d (by simp)
    have := ih (fun c hc => hall c (by simp [hc]))
    simp [List.takeWhile, List.dropWhile, hd, this.1, this.2]

theorem skipJsonWs_append (pre s : Str) (h : ∀ c ∈ pre, jsonWsChar c = true) :
    skipJsonWs (pre ++ s) = skipJsonWs s := by
  induction pre with
  | nil => simp
  | cons c t ih =>
    have hc : jsonWsChar c = true := h c (by simp)
    simp only [List.cons_append, skipJsonWs, List.dropWhile, hc]
    exact ih fun x hx => h x (by simp [hx])

theorem skipJsonWs_eq_self (s : Str)
    (h : ∀ c, s.head? = some c → jsonWsChar c = false) : skipJsonWs s = s := by
  cases s with
  | nil => rfl
  | cons c t =>
    have := h c rfl
    simp [skipJsonWs, List.dropWhile, this]

theorem ind_all_ws (d : ℕ) : ∀ c ∈ ind d, jsonWsChar c = true := by
  intro c hc
  have := List.eq_of_mem_replicate hc
  subst this
  decide

theorem parseStrBody_escape (s : Str) :
    ∀ rest, parseStrBody (escapeStr s ++ '"' :: rest) = some (s, rest) := by
  induction s with
  | nil => intro rest; simp [escapeStr, parseStrBody]
  | cons c s ih =>
    intro rest
    have hesc : escapeStr (c :: s) = escapeChar c ++ escapeStr s := by
      simp [escapeStr]
    rw [hesc, List.append_assoc]
    by_cases h1 : c = '"'
    · subst h1; simp [escapeChar, parseStrBody, parseEscape, consResult, ih]
    · by_cases h2 : c = '\\'
      · subst h2; simp [escapeChar, parseStrBody, parseEscape, consResult, ih]
      · by_cases h3 : c = '\n'
        · subst h3; simp [escapeChar, parseStrBody, parseEscape, consResult, ih]
        · by_cases h4 : c = '\x0d'
          · subst h4; simp [escapeChar, parseStrBody, parseEscape, consResult, ih]
          · by_cases h5 : c = '\t'
            · subst h5; simp [escapeChar, parseStrBody, parseEscape, consResult, ih]
            · by_cases h6 : c = '\x08'
              · subst h6; simp [escapeChar, parseStrBody, parseEscape, consResult, ih]
              · by_cases h7 : c = '\x0c'
                · subst h7
                  simp [escapeChar, parseStrBody, parseEscape, consResult, ih]
                · by_cases h8 : c.toNat < 32
                  · have hesc2 : escapeChar c = ['\\', 'u', '0', '0',
                        hexDigit (c.toNat / 16), hexDigit (c.toNat % 16)] := by
                      simp [escapeChar, h1, h2, h3, h4, h5, h6, h7, h8]
                    rw [hesc2]
                    have hx1 : hexVal (hexDigit (c.toNat / 16)) = some (c.toNat / 16) :=
                      hexVal_hexDigit _ (by omega)
                    have hx2 : hexVal (hexDigit (c.toNat % 16)) = some (c.toNat % 16) :=
                      hexVal_hexDigit _ (Nat.mod_lt _ (by omega))
                    have hval : ((0 * 16 + 0) * 16 + c.toNat / 16) * 16 + c.toNat % 16 =
                        c.toNat := by omega
                    have hvc : Nat.isValidChar c.toNat := Or.inl (by omega)
                    have hx0 : hexVal '0' = some 0 := by decide
                    simp only [List.cons_append, List.nil_append]
                    simp [parseStrBody, parseEscape, parseHex4, hx0, hx1, hx2,
                      consResult, ih]
                    have hval2 : c.toNat / 16 * 16 + c.toNat % 16 = c.toNat := by omega
                    rw [hval2]
                    exact ⟨hvc, Char.ofNat_toNat c⟩
                  · have hesc2 : escapeChar c = [c] := by
                      simp [escapeChar, h1, h2, h3, h4, h5, h6, h7, h8]
                    rw [hesc2]
                    simp [parseStrBody, h1, h2, Nat.le_of_not_lt h8, consResult, ih]

/-- No character of `rest` may extend a just-parsed number token. -/
def numSafe (rest : Str) : Prop :=
  ∀ c, rest.head? = some c → c.isDigit = false ∧ c ≠ '.' ∧ c ≠ 'e' ∧ c ≠ 'E'

theorem headIs_false_of_head {x : Char} (s : Str)
    (h : ∀ c, s.head? = some c → c ≠ x) : headIs x s = false := by
  cases s with
  | nil => rfl
  | cons c t => simp [headIs, h c rfl]

theorem parseNumber_natToChars (n : ℕ) (rest : Str) (h : numSafe rest) :
    parseNumber (natToChars n ++ rest) = some ((n : ℚ), rest) := by
  obtain ⟨hdig, hval⟩ := natToChars_spec n
  obtain ⟨c0, cs0, heq⟩ : ∃ c0 cs0, natToChars n = c0 :: cs0 := by
    rcases he : natToChars n with _ | ⟨c0, cs0⟩
    · exact absurd he (natToChars_ne_nil n)
    · exact ⟨c0, cs0, rfl⟩
  have hc0 : c0.isDigit = true := hdig c0 (by rw [heq]; simp)
  have hneg : headIs '-' (natToChars n ++ rest) = false := by
    have hnd : c0 ≠ '-' := ne_of_digit hc0 (by decide)
    rw [heq]
    simp [headIs, hnd]
  have htw := takeWhile_append_of (p := Char.isDigit) (natToChars n) rest hdig
    (fun c hc => (h c hc).1)
  have hne : (natToChars n).isEmpty = false := by
    rw [heq]; rfl
  rw [parseNumber]
  simp only [hneg, if_false, Bool.false_eq_true, htw.1, htw.2, hne]
  rw [parseFracTail]
  have hdot : headIs '.' rest = false :=
    headIs_false_of_head rest fun c hc => (h c hc).2.1
  simp only [hdot, if_false, Bool.false_eq_true]
  rw [parseExpTail]
  have he1 : headIs 'e' rest = false :=
    headIs_false_of_head rest fun c hc => (h c hc).2.2.1
  have he2 : headIs 'E' rest = false :=
    headIs_false_of_head rest fun c hc => (h c hc).2.2.2
  simp [he1, he2, hval]

theorem parseNumber_intToChars (z : ℤ) (rest : Str) (h : numSafe rest) :
    parseNumber (intToChars z ++ rest) = some ((z : ℚ), rest) := by
  by_cases hz : z < 0
  · rw [intToChars, if_pos hz]
    obtain ⟨hdig, hval⟩ := natToChars_spec z.natAbs
    have hneg : headIs '-' ('-' :: (natToChars z.natAbs ++ rest)) = true := by
      simp [headIs]
    have htw := takeWhile_append_of (p := Char.isDigit) (natToChars z.natAbs) rest hdig
      (fun c hc => (h c hc).1)
    have hne : (natToChars z.natAbs).isEmpty = false := by
      rcases he : natToChars z.natAbs with _ | ⟨c0, cs0⟩
      · exact absurd he (natToChars_ne_nil _)
      · rfl
    rw [parseNumber]
    simp only [List.cons_append, hneg, if_true, List.tail_cons, htw.1, htw.2, hne]
    rw [parseFracTail]
    have hdot : headIs '.' rest = false :=
      headIs_false_of_head rest fun c hc => (h c hc).2.1
    simp only [hdot, if_false, Bool.false_eq_true]
    rw [parseExpTail]
    have he1 : headIs 'e' rest = false :=
      headIs_false_of_head rest fun c hc => (h c hc).2.2.1
    have he2 : headIs 'E' rest = false :=
      headIs_false_of_head rest fun c hc => (h c hc).2.2.2
    have hcast : -((z.natAbs : ℚ)) = (z : ℚ) := by
      have hzq : (z : ℚ) < 0 := by exact_mod_cast hz
      have h2 : ((z.natAbs : ℚ)) = -(z : ℚ) := by push_cast [Int.cast_natAbs]; exact abs_of_neg hzq
      rw [h2]
      ring
    simp [he1, he2, hval, hcast]
  · rw [intToChars, if_neg hz]
    have hcast : ((z.natAbs : ℚ)) = (z : ℚ) := by
      have hzq : (0 : ℚ) ≤ (z : ℚ) := by exact_mod_cast le_of_not_lt hz
      push_cast [Int.cast_natAbs]
      exact abs_of_nonneg hzq
    rw [← hcast]
    exact parseNumber_natToChars z.natAbs rest h

theorem parseNumber_numToChars (q : ℚ) (hden : q.den = 1) (rest : Str)
    (h : numSafe rest) :
    parseNumber (numToChars q ++ rest) = some (q, rest) := by
  have hq : ((q.num : ℚ)) = q := by
    have := Rat.num_div_den q
    rw [hden] at this
    simpa using this
  rw [numToChars, parseNumber_intToChars q.num rest h, hq]

theorem isPrefixOf_append_self (l t : List Char) : l.isPrefixOf (l ++ t) = true := by
  induction l with
  | nil => simp [List.isPrefixOf]
  | cons a as ih => simp [List.isPrefixOf, ih]

/-- The serialization of a value is nonempty, starts with a
non-whitespace character, and never starts with a closing bracket, a
closing brace or a comma. -/
theorem strInd_head (v : JsonVal) (d : ℕ) :
    ∃ c cs, strInd v d = c :: cs ∧ jsonWsChar c = false ∧ c ≠ ']' ∧ c ≠ '}' := by
  cases v with
  | null =>
    refine ⟨'n', "ull".data, ?_, by decide, by decide, by decide⟩
    simp [strInd]
  | bool b =>
    cases b
    · refine ⟨'f', "alse".data, ?_, by decide, by decide, by decide⟩
      simp [strInd]
    · refine ⟨'t', "rue".data, ?_, by decide, by decide, by decide⟩
      simp [strInd]
  | num q =>
    have hs : strInd (.num q) d = numToChars q := by simp [strInd]
    rw [hs, numToChars, intToChars]
    by_cases hz : q.num < 0
    · exact ⟨'-', _, by rw [if_pos hz], by decide, by decide, by decide⟩
    · rw [if_neg hz]
      obtain ⟨hdig, _⟩ := natToChars_spec q.num.natAbs
      rcases he : natToChars q.num.natAbs with _ | ⟨c0, cs0⟩
      · exact absurd he (natToChars_ne_nil _)
      · have hc0 : c0.isDigit = true := hdig c0 (by rw [he]; simp)
        exact ⟨c0, cs0, rfl, jsonWsChar_false_of_digit hc0,
          ne_of_digit hc0 (by decide), ne_of_digit hc0 (by decide)⟩
  | str s =>
    refine ⟨'"', escapeStr s ++ ['"'], ?_, by decide, by decide, by decide⟩
    simp [strInd, quoteStr]
  | arr items =>
    cases items with
    | nil =>
      refine ⟨'[', [']'], ?_, by decide, by decide, by decide⟩
      simp [strInd]
    | cons x xs =>
      refine ⟨'[', itemsInd x xs d ++ '\n' :: ind d ++ [']'], ?_,
        by decide, by decide, by decide⟩
      simp [strInd]
  | obj fields =>
    cases fields with
    | nil =>
      refine ⟨'{', ['}'], ?_, by decide, by decide, by decide⟩
      simp [strInd]
    | cons f fs =>
      refine ⟨'{', fieldsInd f fs d ++ '\n' :: ind d ++ ['}'], ?_,
        by decide, by decide, by decide⟩
      simp [strInd]

/-- Reduce the leading whitespace of a padded serialization. -/
theorem skipJsonWs_pre_strInd (v : JsonVal) (d : ℕ) (pre rest : Str)
    (hpre : ∀ c ∈ pre, jsonWsChar c = true) :
    skipJsonWs (pre ++ (strInd v d ++ rest)) = strInd v d ++ rest := by
  rw [skipJsonWs_append _ _ hpre]
  obtain ⟨c, cs, heq, hws, _, _⟩ := strInd_head v d
  apply skipJsonWs_eq_self
  intro x hx
  rw [heq] at hx
  simp only [List.cons_append, List.head?_cons, Option.some_inj] at hx
  exact hx ▸ hws

theorem wsPre_nl_ind (k : ℕ) : ∀ c ∈ ('\n' :: ind k), jsonWsChar c = true := by
  intro c hc
  rcases List.mem_cons.mp hc with h | h
  · subst h; decide
  · exact ind_all_ws k c h

theorem numSafe_nil : numSafe [] := by
  intro c hc
  simp at hc

theorem numSafe_cons {c₀ : Char} (t : Str)
    (h : c₀.isDigit = false ∧ c₀ ≠ '.' ∧ c₀ ≠ 'e' ∧ c₀ ≠ 'E') :
    numSafe (c₀ :: t) := by
  intro c hc
  simp only [List.head?_cons, Option.some_inj] at hc
  exact hc ▸ h

theorem skipJsonWs_nl_ind (k : ℕ) (c₀ : Char) (t : Str)
    (h : jsonWsChar c₀ = false) :
    skipJsonWs (('\n' :: ind k) ++ c₀ :: t) = c₀ :: t := by
  rw [skipJsonWs_append _ _ (wsPre_nl_ind k)]
  apply skipJsonWs_eq_self
  intro c hc
  simp only [List.head?_cons, Option.some_inj] at hc
  exact hc ▸ h

theorem skipJsonWs_nonWs (c₀ : Char) (t : Str) (h : jsonWsChar c₀ = false) :
    skipJsonWs (c₀ :: t) = c₀ :: t :=
  skipJsonWs_eq_self _ (by
    intro c hc
    simp only [List.head?_cons, Option.some_inj] at hc
    exact hc ▸ h)

theorem numToChars_head (q : ℚ) :
    ∃ c cs, numToChars q = c :: cs ∧ (c.isDigit = true ∨ c = '-') := by
  rw [numToChars, intToChars]
  by_cases hz : q.num < 0
  · exact ⟨'-', _, by rw [if_pos hz], Or.inr rfl⟩
  · rw [if_neg hz]
    obtain ⟨hdig, _⟩ := natToChars_spec q.num.natAbs
    rcases he : natToChars q.num.natAbs with _ | ⟨c0, cs0⟩
    · exact absurd he (natToChars_ne_nil _)
    · exact ⟨c0, cs0, rfl, Or.inl (hdig c0 (by rw [he]; simp))⟩

/-- JSON.parse inverts the two-space-indented JSON.stringify on trees
whose numbers are integral: the joint fuel induction over the value,
item-list and field-list parsers. -/
theorem parse_strInd_all : ∀ fuel : ℕ,
    (∀ (v : JsonVal) (d : ℕ) (pre rest : Str),
        jsonIntish v = true →
        (∀ c ∈ pre, jsonWsChar c = true) →
        numSafe rest →
        (strInd v d).length < fuel →
        parseVal fuel (pre ++ (strInd v d ++ rest)) = some (v, rest)) ∧
    (∀ (x : JsonVal) (xs : List JsonVal) (d : ℕ) (rest : Str),
        jsonIntish x = true → jsonIntishList xs = true →
        (itemsInd x xs d).length < fuel →
        parseItems fuel (itemsInd x xs d ++ ('\n' :: (ind d ++ ']' :: rest))) =
          some (x :: xs, rest)) ∧
    (∀ (k : Str) (v : JsonVal) (fs : List (Str × JsonVal)) (d : ℕ) (rest : Str),
        jsonIntish v = true → jsonIntishFields fs = true →
        (fieldsInd (k, v) fs d).length < fuel →
        parseFields fuel (fieldsInd (k, v) fs d ++ ('\n' :: (ind d ++ '}' :: rest))) =
          some ((k, v) :: fs, rest)) := by
  intro fuel
  induction fuel with
  | zero =>
    refine ⟨?_, ?_, ?_⟩
    · intro v d pre rest _ _ _ hlen
      exact absurd hlen (Nat.not_lt_zero _)
    · intro x xs d rest _ _ hlen
      exact absurd hlen (Nat.not_lt_zero _)
    · intro k v fs d rest _ _ hlen
      exact absurd hlen (Nat.not_lt_zero _)
  | succ fuel ih =>
    obtain ⟨ih1, ih2, ih3⟩ := ih
    refine ⟨?_, ?_, ?_⟩
    · -- one value
      intro v d pre rest hint hpre hsafe hlen
      have hskip := skipJsonWs_pre_strInd v d pre rest hpre
      cases v with
      | null =>
        have hstr2 : strInd .null d ++ rest = 'n' :: (['u', 'l', 'l'] ++ rest) := by
          simp only [strInd]
          rfl
        simp only [parseVal]
        rw [hstr2] at hskip
        rw [hstr2, hskip]
        simp [List.isPrefixOf, List.drop]
      | bool b =>
        cases b
        · have hstr2 : strInd (.bool false) d ++ rest =
              'f' :: (['a', 'l', 's', 'e'] ++ rest) := by
            simp only [strInd]
            rfl
          simp only [parseVal]
          rw [hstr2] at hskip
          rw [hstr2, hskip]
          simp [List.isPrefixOf, List.drop]
        · have hstr2 : strInd (.bool true) d ++ rest =
              't' :: (['r', 'u', 'e'] ++ rest) := by
            simp only [strInd]
            rfl
          simp only [parseVal]
          rw [hstr2] at hskip
          rw [hstr2, hskip]
          simp [List.isPrefixOf, List.drop]
      | num q =>
        have hden : q.den = 1 := by simpa [jsonIntish] using hint
        obtain ⟨c0, cs0, hc, hd⟩ := numToChars_head q
        have hstr2 : strInd (.num q) d ++ rest = c0 :: (cs0 ++ rest) := by
          rw [show strInd (.num q) d = numToChars q from by simp [strInd], hc]
          simp
        have hparse : parseNumber (c0 :: (cs0 ++ rest)) = some (q, rest) := by
          rw [← List.cons_append, ← hc]
          exact parseNumber_numToChars q hden rest hsafe
        have h1 : c0 ≠ 'n' := by
          rcases hd with h | h
          · exact ne_of_digit h (by decide)
          · subst h; decide
        have h2 : c0 ≠ 't' := by
          rcases hd with h | h
          · exact ne_of_digit h (by decide)
          · subst h; decide
        have h3 : c0 ≠ 'f' := by
          rcases hd with h | h
          · exact ne_of_digit h (by decide)
          · subst h; decide
        have h4 : c0 ≠ '"' := by
          rcases hd with h | h
          · exact ne_of_digit h (by decide)
          · subst h; decide
        have h5 : c0 ≠ '[' := by
          rcases hd with h | h
          · exact ne_of_digit h (by decide)
          · subst h; decide
        have h6 : c0 ≠ '{' := by
          rcases hd with h | h
          · exact ne_of_digit h (by decide)
          · subst h; decide
        simp only [parseVal]
        rw [hstr2] at hskip
        rw [hstr2, hskip]
        simp [h1, h2, h3, h4, h5, h6, hparse]
      | str s =>
        have hstr2 : strInd (.str s) d ++ rest =
            '"' :: (escapeStr s ++ '"' :: rest) := by
          simp [strInd, quoteStr]
        have hbody : parseStrBody (escapeStr s ++ '"' :: rest) = some (s, rest) :=
          parseStrBody_escape s rest
        simp only [parseVal]
        rw [hstr2] at hskip
        rw [hstr2, hskip]
        simp [hbody]
      | arr items =>
        cases items with
        | nil =>
          have hstr2 : strInd (.arr []) d ++ rest = '[' :: (']' :: rest) := by
            simp only [strInd]
            rfl
          have hsk2 : skipJsonWs (']' :: rest) = ']' :: rest :=
            skipJsonWs_nonWs ']' rest (by decide)
          simp only [parseVal]
          rw [hstr2] at hskip
          rw [hstr2, hskip]
          simp [hsk2, headIs]
        | cons x xs =>
          have hstr2 : strInd (.arr (x :: xs)) d ++ rest =
              '[' :: (itemsInd x xs d ++ ('\n' :: (ind d ++ ']' :: rest))) := by
            simp [strInd, List.append_assoc]
          have hints : jsonIntish x = true ∧ jsonIntishList xs = true := by
            simpa [jsonIntish, jsonIntishList, Bool.and_eq_true] using hint
          have hlen2 : (itemsInd x xs d).length < fuel := by
            have hs : (strInd (.arr (x :: xs)) d).length =
                1 + ((itemsInd x xs d).length + (1 + (d + 1))) := by
              simp [strInd, ind, List.length_append]
              omega
            omega
          have hitems := ih2 x xs d rest hints.1 hints.2 hlen2
          obtain ⟨ch, ct, hch, hchws, hchne, _⟩ := strInd_head x (d + 2)
          have hheadIs : headIs ']'
              (skipJsonWs (itemsInd x xs d ++ ('\n' :: (ind d ++ ']' :: rest)))) =
              false := by
            cases xs with
            | nil =>
              rw [show itemsInd x [] d ++ ('\n' :: (ind d ++ ']' :: rest)) =
                  ('\n' :: ind (d + 2)) ++
                    (strInd x (d + 2) ++ ('\n' :: (ind d ++ ']' :: rest))) from by
                simp [itemsInd, List.append_assoc]]
              rw [skipJsonWs_append _ _ (wsPre_nl_ind (d + 2)), hch]
              rw [List.cons_append, skipJsonWs_nonWs ch _ hchws]
              simp [headIs, hchne]
            | cons y ys =>
              rw [show itemsInd x (y :: ys) d ++ ('\n' :: (ind d ++ ']' :: rest)) =
                  ('\n' :: ind (d + 2)) ++
                    (strInd x (d + 2) ++
                      (',' :: (itemsInd y ys d ++ ('\n' :: (ind d ++ ']' :: rest))))) from by
                simp [itemsInd, List.append_assoc]]
              rw [skipJsonWs_append _ _ (wsPre_nl_ind (d + 2)), hch]
              rw [List.cons_append, skipJsonWs_nonWs ch _ hchws]
              simp [headIs, hchne]
          simp only [parseVal]
          rw [hstr2] at hskip
          rw [hstr2, hskip]
          simp [hheadIs, hitems]
      | obj fields =>
        cases fields with
        | nil =>
          have hstr2 : strInd (.obj []) d ++ rest = '{' :: ('}' :: rest) := by
            simp only [strInd]
            rfl
          have hsk2 : skipJsonWs ('}' :: rest) = '}' :: rest :=
            skipJsonWs_nonWs '}' rest (by decide)
          simp only [parseVal]
          rw [hstr2] at hskip
          rw [hstr2, hskip]
          simp [hsk2, headIs]
        | cons f fs =>
          obtain ⟨k, v⟩ := f
          have hstr2 : strInd (.obj ((k, v) :: fs)) d ++ rest =
              '{' :: (fieldsInd (k, v) fs d ++ ('\n' :: (ind d ++ '}' :: rest))) := by
            simp [strInd, List.append_assoc]
          have hints : jsonIntish v = true ∧ jsonIntishFields fs = true := by
            simpa [jsonIntish, jsonIntishFields, Bool.and_eq_true] using hint
          have hlen2 : (fieldsInd (k, v) fs d).length < fuel := by
            have hs : (strInd (.obj ((k, v) :: fs)) d).length =
                1 + ((fieldsInd (k, v) fs d).length + (1 + (d + 1))) := by
              simp [strInd, ind, List.length_append]
              omega
            omega
          have hfields := ih3 k v fs d rest hints.1 hints.2 hlen2
          have hheadIs : headIs '}'
              (skipJsonWs (fieldsInd (k, v) fs d ++ ('\n' :: (ind d ++ '}' :: rest)))) =
              false := by
            cases fs with
            | nil =>
              rw [show fieldsInd (k, v) [] d ++ ('\n' :: (ind d ++ '}' :: rest)) =
                  ('\n' :: ind (d + 2)) ++
                    ('"' :: (escapeStr k ++
                      ('"' :: (':' :: (' ' ::
                        (strInd v (d + 2) ++ ('\n' :: (ind d ++ '}' :: rest)))))))) from by
                simp [fieldsInd, quoteStr, List.append_assoc]]
              rw [skipJsonWs_append _ _ (wsPre_nl_ind (d + 2))]
              rw [skipJsonWs_nonWs '"' _ (by decide)]
              simp [headIs]
            | cons g gs =>
              obtain ⟨k2, v2⟩ := g
              rw [show fieldsInd (k, v) ((k2, v2) :: gs) d ++
                  ('\n' :: (ind d ++ '}' :: rest)) =
                  ('\n' :: ind (d + 2)) ++
                    ('"' :: (escapeStr k ++
                      ('"' :: (':' :: (' ' ::
                        (strInd v (d + 2) ++
                          (',' :: (fieldsInd (k2, v2) gs d ++
                            ('\n' :: (ind d ++ '}' :: rest)))))))))) from by
                simp [fieldsInd, quoteStr, List.append_assoc]]
              rw [skipJsonWs_append _ _ (wsPre_nl_ind (d + 2))]
              rw [skipJsonWs_nonWs '"' _ (by decide)]
              simp [headIs]
          simp only [parseVal]
          rw [hstr2] at hskip
          rw [hstr2, hskip]
          simp [hheadIs, hfields]
    · -- the items of a non-empty array
      intro x xs d rest hx hxs hlen
      cases xs with
      | nil =>
        have heq : itemsInd x [] d ++ ('\n' :: (ind d ++ ']' :: rest)) =
            ('\n' :: ind (d + 2)) ++
              (strInd x (d + 2) ++ ('\n' :: (ind d ++ ']' :: rest))) := by
          simp [itemsInd, List.append_assoc]
        have hlen2 : (strInd x (d + 2)).length < fuel := by
          have : (itemsInd x [] d).length =
              1 + ((d + 2) + (strInd x (d + 2)).length) := by
            simp [itemsInd, ind, List.length_append]
            omega
          omega
        have hval := ih1 x (d + 2) ('\n' :: ind (d + 2))
          ('\n' :: (ind d ++ ']' :: rest)) hx (wsPre_nl_ind (d + 2))
          (numSafe_cons _ (by refine ⟨by decide, by decide, by decide, by decide⟩))
          hlen2
        simp only [parseItems, heq, hval]
        have hsk : skipJsonWs ('\n' :: (ind d ++ ']' :: rest)) = ']' :: rest := by
          rw [show ('\n' :: (ind d ++ ']' :: rest) : Str) =
              ('\n' :: ind d) ++ ']' :: rest from by simp]
          exact skipJsonWs_nl_ind d ']' rest (by decide)
        simp [hsk, headIs]
      | cons y ys =>
        have heq : itemsInd x (y :: ys) d ++ ('\n' :: (ind d ++ ']' :: rest)) =
            ('\n' :: ind (d + 2)) ++
              (strInd x (d + 2) ++
                (',' :: (itemsInd y ys d ++ ('\n' :: (ind d ++ ']' :: rest))))) := by
          simp [itemsInd, List.append_assoc]
        have hlens : (itemsInd x (y :: ys) d).length =
            1 + ((d + 2) + ((strInd x (d + 2)).length +
              (1 + (itemsInd y ys d).length))) := by
          simp [itemsInd, ind, List.length_append]
          omega
        have hxint : jsonIntish y = true ∧ jsonIntishList ys = true := by
          simpa [jsonIntishList, Bool.and_eq_true] using hxs
        have hval := ih1 x (d + 2) ('\n' :: ind (d + 2))
          (',' :: (itemsInd y ys d ++ ('\n' :: (ind d ++ ']' :: rest)))) hx
          (wsPre_nl_ind (d + 2))
          (numSafe_cons _ (by refine ⟨by decide, by decide, by decide, by decide⟩))
          (by omega)
        have hrec := ih2 y ys d rest hxint.1 hxint.2 (by omega)
        simp only [parseItems, heq, hval]
        have hsk : skipJsonWs
            (',' :: (itemsInd y ys d ++ ('\n' :: (ind d ++ ']' :: rest)))) =
            ',' :: (itemsInd y ys d ++ ('\n' :: (ind d ++ ']' :: rest))) :=
          skipJsonWs_nonWs ',' _ (by decide)
        simp [hsk, headIs, hrec]
    · -- the fields of a non-empty object
      intro k v fs d rest hv hfs hlen
      cases fs with
      | nil =>
        have heq : fieldsInd (k, v) [] d ++ ('\n' :: (ind d ++ '}' :: rest)) =
            ('\n' :: ind (d + 2)) ++
              ('"' :: (escapeStr k ++
                ('"' :: (':' :: (' ' ::
                  (strInd v (d + 2) ++ ('\n' :: (ind d ++ '}' :: rest)))))))) := by
          simp [fieldsInd, quoteStr, List.append_assoc]
        have hlen2 : (strInd v (d + 2)).length < fuel := by
          have : (fieldsInd (k, v) [] d).length =
              1 + ((d + 2) + ((quoteStr k).length +
                (2 + (strInd v (d + 2)).length))) := by
            simp [fieldsInd, ind, quoteStr, List.length_append]
            omega
          have hq : 2 ≤ (quoteStr k).length := by
            simp [quoteStr, List.length_append]
          omega
        have hbody := parseStrBody_escape k
          (':' :: (' ' :: (strInd v (d + 2) ++ ('\n' :: (ind d ++ '}' :: rest)))))
        have hval := ih1 v (d + 2) [' ']
          ('\n' :: (ind d ++ '}' :: rest)) hv
          (by intro c hc; simp at hc; subst hc; decide)
          (numSafe_cons _ (by refine ⟨by decide, by decide, by decide, by decide⟩))
          hlen2
        have hsk : skipJsonWs ('\n' :: (ind d ++ '}' :: rest)) = '}' :: rest := by
          rw [show ('\n' :: (ind d ++ '}' :: rest) : Str) =
              ('\n' :: ind d) ++ '}' :: rest from by simp]
          exact skipJsonWs_nl_ind d '}' rest (by decide)
        simp only [parseFields, heq]
        rw [skipJsonWs_append _ _ (wsPre_nl_ind (d + 2))]
        rw [skipJsonWs_nonWs '"' _ (by decide)]
        simp only [headIs, List.tail_cons]
        rw [show ('"' : Char) = '"' from rfl]
        simp only [if_pos rfl, decide_True, ite_true]
        rw [hbody]
        have hsk2 : skipJsonWs
            (':' :: (' ' :: (strInd v (d + 2) ++ ('\n' :: (ind d ++ '}' :: rest))))) =
            ':' :: (' ' :: (strInd v (d + 2) ++ ('\n' :: (ind d ++ '}' :: rest)))) :=
          skipJsonWs_nonWs ':' _ (by decide)
        simp only [hsk2, headIs, List.tail_cons]
        simp only [decide_True, ite_true]
        rw [show (' ' :: (strInd v (d + 2) ++ ('\n' :: (ind d ++ '}' :: rest))) : Str)
            = [' '] ++ (strInd v (d + 2) ++ ('\n' :: (ind d ++ '}' :: rest))) from rfl]
        rw [hval]
        simp [hsk, headIs]
      | cons g gs =>
        obtain ⟨k2, v2⟩ := g
        have heq : fieldsInd (k, v) ((k2, v2) :: gs) d ++
            ('\n' :: (ind d ++ '}' :: rest)) =
            ('\n' :: ind (d + 2)) ++
              ('"' :: (escapeStr k ++
                ('"' :: (':' :: (' ' ::
                  (strInd v (d + 2) ++
                    (',' :: (fieldsInd (k2, v2) gs d ++
                      ('\n' :: (ind d ++ '}' :: rest)))))))))) := by
          simp [fieldsInd, quoteStr, List.append_assoc]
        have hlens : 2 ≤ (quoteStr k).length := by
          simp [quoteStr, List.length_append]
        have hlen3 : (fieldsInd (k, v) ((k2, v2) :: gs) d).length =
            1 + ((d + 2) + ((quoteStr k).length +
              (2 + ((strInd v (d + 2)).length +
                (1 + (fieldsInd (k2, v2) gs d).length))))) := by
          simp [fieldsInd, ind, quoteStr, List.length_append]
          omega
        have hvint : jsonIntish v2 = true ∧ jsonIntishFields gs = true := by
          simpa [jsonIntishFields, Bool.and_eq_true] using hfs
        have hbody := parseStrBody_escape k
          (':' :: (' ' :: (strInd v (d + 2) ++
            (',' :: (fieldsInd (k2, v2) gs d ++ ('\n' :: (ind d ++ '}' :: rest)))))))
        have hval := ih1 v (d + 2) [' ']
          (',' :: (fieldsInd (k2, v2) gs d ++ ('\n' :: (ind d ++ '}' :: rest)))) hv
          (by intro c hc; simp at hc; subst hc; decide)
          (numSafe_cons _ (by refine ⟨by decide, by decide, by decide, by decide⟩))
          (by omega)
        have hrec := ih3 k2 v2 gs d rest hvint.1 hvint.2 (by omega)
        simp only [parseFields, heq]
        rw [skipJsonWs_append _ _ (wsPre_nl_ind (d + 2))]
        rw [skipJsonWs_nonWs '"' _ (by decide)]
        simp only [headIs, List.tail_cons, decide_True, ite_true]
        rw [hbody]
        have hsk2 : skipJsonWs
            (':' :: (' ' :: (strInd v (d + 2) ++
              (',' :: (fieldsInd (k2, v2) gs d ++ ('\n' :: (ind d ++ '}' :: rest))))))) =
            ':' :: (' ' :: (strInd v (d + 2) ++
              (',' :: (fieldsInd (k2, v2) gs d ++ ('\n' :: (ind d ++ '}' :: rest)))))) :=
          skipJsonWs_nonWs ':' _ (by decide)
        simp only [hsk2, headIs, List.tail_cons, decide_True, ite_true]
        rw [show (' ' :: (strInd v (d + 2) ++
            (',' :: (fieldsInd (k2, v2) gs d ++ ('\n' :: (ind d ++ '}' :: rest))))) : Str)
            = [' '] ++ (strInd v (d + 2) ++
              (',' :: (fieldsInd (k2, v2) gs d ++ ('\n' :: (ind d ++ '}' :: rest)))))
            from rfl]
        rw [hval]
        have hsk3 : skipJsonWs
            (',' :: (fieldsInd (k2, v2) gs d ++ ('\n' :: (ind d ++ '}' :: rest)))) =
            ',' :: (fieldsInd (k2, v2) gs d ++ ('\n' :: (ind d ++ '}' :: rest))) :=
          skipJsonWs_nonWs ',' _ (by decide)
        simp [hsk3, headIs, hrec]

theorem jsonParse_stringify (v : JsonVal) (h : jsonIntish v = true) :
    jsonParse (jsonStringify v) = some v := by
  have hmain := (parse_strInd_all ((strInd v 0).length + 1)).1 v 0 [] [] h
    (by intro c hc; cases hc)
    (by intro c hc; simp at hc)
    (Nat.lt_succ_self _)
  simp only [List.nil_append, List.append_nil] at hmain
  simp only [jsonParse, jsonStringify, hmain]
  simp [skipJsonWs]

/-! ## Scoring lemmas -/

theorem achievedScoreOf_eq (rs : List ToolExecutionResult) :
    achievedScoreOf rs = 2 * (appliedFixCount rs : ℤ) := by
  have h : ((maxScoreOf rs : ℤ) - severityCount .critical rs * 4 -
      severityCount .high rs * 3 - severityCount .medium rs * 2 -
      severityCount .low rs + appliedFixCount rs * 2) =
      2 * (appliedFixCount rs : ℤ) := by
    unfold maxScoreOf
    push_cast
    ring
  unfold achievedScoreOf
  rw [h, max_eq_right (by positivity)]

theorem complianceScore_pos_eq (rs : List ToolExecutionResult)
    (hm : 0 < maxScoreOf rs) :
    complianceScore rs =
      ⌊2 * (appliedFixCount rs : ℚ) / (maxScoreOf rs : ℚ) * 100 + 1 / 2⌋ := by
  unfold complianceScore
  rw [if_pos hm, jsRound_eq, qmul_eq, qdiv_eq, achievedScoreOf_eq]
  push_cast
  ring_nf

/-! ## Orchestrator projections -/

theorem executeTools_results (reg : Registry) (names : List Str)
    (ctx : PdfAnalysisContext) (llm : Bool) :
    (executeTools reg names ctx llm).1 =
      (optimizeToolOrder names).map (processName reg ctx llm) := by
  unfold executeTools
  rcases h : execGo reg ctx llm (optimizeToolOrder names) with ⟨rs, ti, tf, ok⟩
  have hr := execGo_results reg ctx llm (optimizeToolOrder names)
  rw [h] at hr
  simpa using hr

theorem executeTools_success (reg : Registry) (names : List Str)
    (ctx : PdfAnalysisContext) (llm : Bool) :
    (executeTools reg names ctx llm).2.success =
      (optimizeToolOrder names).all (nameSuccessFlag reg ctx llm) := by
  unfold executeTools
  rcases h : execGo reg ctx llm (optimizeToolOrder names) with ⟨rs, ti, tf, ok⟩
  have hs := execGo_success reg ctx llm (optimizeToolOrder names)
  rw [h] at hs
  simpa using hs

/-! ## Heading-chain characterization -/

theorem hasLogicalGo_iff_chain (hs : List HeadingInfo) : ∀ cur : ℕ,
    (hasLogicalGo cur hs = true ↔
      List.Chain (fun p c => c ≤ p + 1) cur (hs.map (fun h => h.level))) := by
  induction hs with
  | nil =>
    intro cur
    simp [hasLogicalGo]
  | cons h t ih =>
    intro cur
    by_cases hgt : h.level > cur + 1
    · simp [hasLogicalGo, hgt, List.chain_cons]
    · simp [hasLogicalGo, hgt, List.chain_cons, ih h.level]
      intro _
      omega

/-! ## Field lookup lemmas -/

theorem jsonGet_cons_self (k : Str) (v : JsonVal) (fs : List (Str × JsonVal)) :
    jsonGet k (.obj ((k, v) :: fs)) = some v := by
  simp [jsonGet, List.lookup]

theorem jsonGet_cons_ne (k k1 : Str) (h : (k == k1) = false) (v : JsonVal)
    (fs : List (Str × JsonVal)) :
    jsonGet k (.obj ((k1, v) :: fs)) = jsonGet k (.obj fs) := by
  simp [jsonGet, List.lookup, h]

/-! ## Integrality of the numbers a report serializes -/

theorem jsonIntishList_append (a b : List JsonVal) :
    jsonIntishList (a ++ b) = (jsonIntishList a && jsonIntishList b) := by
  induction a with
  | nil => simp [jsonIntishList]
  | cons x xs ih => simp [jsonIntishList, ih, Bool.and_assoc]

theorem jsonIntishFields_append (a b : List (Str × JsonVal)) :
    jsonIntishFields (a ++ b) = (jsonIntishFields a && jsonIntishFields b) := by
  induction a with
  | nil => simp [jsonIntishFields]
  | cons x xs ih =>
    rcases x with ⟨k, v⟩
    simp [jsonIntishFields, ih, Bool.and_assoc]

theorem jsonIntishList_map_str (l : List Str) :
    jsonIntishList (l.map JsonVal.str) = true := by
  induction l with
  | nil => rfl
  | cons x xs ih => simp [jsonIntishList, jsonIntish, ih]

theorem issueToJson_intish (i : AccessibilityIssue) :
    jsonIntish (issueToJson i) = true := by
  unfold issueToJson
  rcases h : i.location with _ | l <;>
    simp [h, jsonIntish, jsonIntishFields, jsonIntishFields_append,
      jsonIntishList_map_str]

theorem fixToJson_intish (f : AccessibilityFix) :
    jsonIntish (fixToJson f) = true := by
  unfold fixToJson
  rcases hb : f.beforeValue with _ | b <;> rcases ha : f.afterValue with _ | a <;>
    simp [hb, ha, jsonIntish, jsonIntishFields, jsonIntishFields_append,
      jsonIntishList_map_str]

theorem jsonIntishList_map_issue (l : List AccessibilityIssue) :
    jsonIntishList (l.map issueToJson) = true := by
  induction l with
  | nil => rfl
  | cons x xs ih => simp [jsonIntishList, issueToJson_intish, ih]

theorem jsonIntishList_map_fix (l : List AccessibilityFix) :
    jsonIntishList (l.map fixToJson) = true := by
  induction l with
  | nil => rfl
  | cons x xs ih => simp [jsonIntishList, fixToJson_intish, ih]

theorem toolResultToJson_intish (r : ToolExecutionResult) :
    jsonIntish (toolResultToJson r) = true := by
  unfold toolResultToJson
  rcases h : r.error with _ | e <;>
    simp [h, jsonIntish, jsonIntishFields, jsonIntishFields_append,
      jsonIntishList_map_issue, jsonIntishList_map_fix, Rat.den_natCast]

theorem jsonIntishList_map_toolResult (l : List ToolExecutionResult) :
    jsonIntishList (l.map toolResultToJson) = true := by
  induction l with
  | nil => rfl
  | cons x xs ih => simp [jsonIntishList, toolResultToJson_intish, ih]

theorem fixesByType_intish (l : List (Str × List AccessibilityFix)) :
    jsonIntishFields
      (l.map fun kv => (kv.1, JsonVal.arr (kv.2.map fixToJson))) = true := by
  induction l with
  | nil => rfl
  | cons x xs ih =>
    rcases x with ⟨k, fs⟩
    simp [jsonIntishFields, jsonIntish, jsonIntishList_map_fix, ih]

theorem improvementPercentage_intish (b a : JsNum) :
    jsonIntish (jsNumToJson (improvementPercentage b a)) = true := by
  cases b with
  | finite qb =>
    cases a with
    | finite qa =>
      simp only [improvementPercentage, jsNumSub]
      by_cases hz : qb = 0
      · subst hz
        rcases lt_trichotomy (qsub qa 0) 0 with hlt | heq | hgt
        · have h1 : ¬ (0 < qsub qa 0) := not_lt_of_gt hlt
          norm_num [jsNumDiv, h1, hlt, jsNumMul, jsNumRound, jsNumToJson,
            jsonIntish]
        · norm_num [jsNumDiv, heq, jsNumMul, jsNumRound, jsNumToJson, jsonIntish]
        · have h1 : ¬ (qsub qa 0 < 0) := not_lt_of_gt hgt
          norm_num [jsNumDiv, h1, hgt, jsNumMul, jsNumRound, jsNumToJson,
            jsonIntish]
      · norm_num [jsNumDiv, hz, jsNumMul, jsNumRound, jsNumToJson, jsonIntish,
          Rat.den_intCast]
    | posInf =>
      by_cases hqb : qb < 0 <;>
        norm_num [improvementPercentage, jsNumSub, jsNumDiv, jsNumMul, jsNumRound,
          jsNumToJson, jsonIntish, hqb]
    | negInf =>
      by_cases hqb : qb < 0 <;>
        norm_num [improvementPercentage, jsNumSub, jsNumDiv, jsNumMul, jsNumRound,
          jsNumToJson, jsonIntish, hqb]
    | nan =>
      norm_num [improvementPercentage, jsNumSub, jsNumDiv, jsNumMul, jsNumRound,
        jsNumToJson, jsonIntish]
  | posInf =>
    cases a with
    | finite qa =>
      by_cases hqa : qa < 0 <;>
        norm_num [improvementPercentage, jsNumSub, jsNumDiv, jsNumMul, jsNumRound,
          jsNumToJson, jsonIntish, hqa]
    | posInf =>
      norm_num [improvementPercentage, jsNumSub, jsNumDiv, jsNumMul, jsNumRound,
        jsNumToJson, jsonIntish]
    | negInf =>
      norm_num [improvementPercentage, jsNumSub, jsNumDiv, jsNumMul, jsNumRound,
        jsNumToJson, jsonIntish]
    | nan =>
      norm_num [improvementPercentage, jsNumSub, jsNumDiv, jsNumMul, jsNumRound,
        jsNumToJson, jsonIntish]
  | negInf =>
    cases a with
    | finite qa =>
      by_cases hqa : qa < 0 <;>
        norm_num [improvementPercentage, jsNumSub, jsNumDiv, jsNumMul, jsNumRound,
          jsNumToJson, jsonIntish, hqa]
    | posInf =>
      norm_num [improvementPercentage, jsNumSub, jsNumDiv, jsNumMul, jsNumRound,
        jsNumToJson, jsonIntish]
    | negInf =>
      norm_num [improvementPercentage, jsNumSub, jsNumDiv, jsNumMul, jsNumRound,
        jsNumToJson, jsonIntish]
    | nan =>
      norm_num [improvementPercentage, jsNumSub, jsNumDiv, jsNumMul, jsNumRound,
        jsNumToJson, jsonIntish]
  | nan =>
    cases a <;>
      norm_num [improvementPercentage, jsNumSub, jsNumDiv, jsNumMul, jsNumRound,
        jsNumToJson, jsonIntish]

theorem reportToJson_generate_intish (rs : List ToolExecutionResult)
    (dinfo : DocumentInfo) (w : Str) (b a : JsNum) (date : Str)
    (hb : jsonIntish (jsNumToJson b) = true)
    (ha : jsonIntish (jsNumToJson a) = true) :
    jsonIntish (reportToJson (generateAuditReport rs dinfo w b a date)) = true := by
  unfold generateAuditReport reportToJson
  simp [jsonIntish, jsonIntishFields, jsonIntishList, jsonIntishList_map_issue,
    jsonIntishList_map_toolResult, jsonIntishList_map_str, fixesByType_intish,
    improvementPercentage_intish, hb, ha, Rat.den_natCast, Rat.den_intCast,
    wcagBucketToJson]

/-- Extraction of executive_summary.overall_score from the exported and
re-parsed JSON report. -/
def parsedOverallScore (rs : List ToolExecutionResult) (dinfo : DocumentInfo)
    (w : Str) (b a : JsNum) (date : Str) : Option JsonVal :=
  ((jsonParse (exportReport (generateAuditReport rs dinfo w b a date) .json)).bind
    (jsonGet "executive_summary".data)).bind (jsonGet "overall_score".data)

theorem jsonGet_report_overall (r : AccessibilityAuditReport) :
    (jsonGet "executive_summary".data (reportToJson r)).bind
      (jsonGet "overall_score".data) =
      some (jsNumToJson r.executive_summary.overall_score) := by
  unfold reportToJson
  rw [jsonGet_cons_self]
  simp only [Option.some_bind]
  rw [jsonGet_cons_ne _ _ (by decide), jsonGet_cons_ne _ _ (by decide),
    jsonGet_cons_ne _ _ (by decide), jsonGet_cons_self]

theorem parsedOverallScore_eq (rs : List ToolExecutionResult)
    (dinfo : DocumentInfo) (w : Str) (b a : JsNum) (date : Str)
    (hb : jsonIntish (jsNumToJson b) = true)
    (ha : jsonIntish (jsNumToJson a) = true) :
    parsedOverallScore rs dinfo w b a date = some (jsNumToJson a) := by
  unfold parsedOverallScore
  have hint := reportToJson_generate_intish rs dinfo w b a date hb ha
  have hexp : exportReport (generateAuditReport rs dinfo w b a date) .json =
      jsonStringify (reportToJson (generateAuditReport rs dinfo w b a date)) := rfl
  rw [hexp, jsonParse_stringify _ hint]
  simp only [Option.some_bind]
  rw [jsonGet_report_overall]
  simp [generateAuditReport]

/-! ## Claim fixtures -/

/-- A single low-severity issue. -/
def lowIssue : AccessibilityIssue :=
  { type := .missing_alt_text, severity := .low, description := [],
    wcagCriteria := [], suggestion := [] }

/-- A single applied fix. -/
def appliedFix : AccessibilityFix :=
  { type := [], description := [], applied := true, wcagImprovement := [] }

/-- One envelope with one low issue and one applied fix. -/
def c1cex : List ToolExecutionResult :=
  [{ toolName := [], success := true, issuesFound := [lowIssue],
     fixesApplied := [appliedFix] }]

/-- One envelope with one low issue and no fixes. -/
def c1wit : List ToolExecutionResult :=
  [{ toolName := [], success := true, issuesFound := [lowIssue],
     fixesApplied := [] }]

/-- One envelope with one low issue and one unapplied fix. -/
def c8w1 : List ToolExecutionResult :=
  [{ toolName := [], success := true, issuesFound := [lowIssue],
     fixesApplied := [] }]

/-- One envelope with one low issue and one applied fix. -/
def c8w2 : List ToolExecutionResult :=
  [{ toolName := [], success := true, issuesFound := [lowIssue],
     fixesApplied := [appliedFix] }]

/-- A heading record carrying only a level. -/
def mkHeading (l : ℕ) : HeadingInfo :=
  { text := [], level := l, position := 0, page := 1, isProperlyTagged := false,
    contextText := [] }

/-- A plain analysis context with no images or tables. -/
def sampleCtx : PdfAnalysisContext :=
  { fileName := "doc.pdf".data, pageCount := 1, textContent := "text".data,
    hasImages := false, hasTables := false, hasLinks := false,
    language := "en".data, wcagLevel := .AA }

/-- The C5 scenario text of the specification. -/
def c5text : Str :=
  "1. Introduction\n\nThis is text.\n\n1.1 Background\n\nMore text.\n\n1.1.1 Details\n".data

/-- The C6 scenario context: a 3-row, 3-column pipe table. -/
def c6ctx : PdfAnalysisContext :=
  { fileName := "f".data, pageCount := 1,
    textContent := "Name | Value | %\nA | 1 | 10%\nB | 2 | 20%".data,
    hasImages := false, hasTables := true, hasLinks := false,
    language := "en".data, wcagLevel := .AA }

/-- A context whose text mentions one photo. -/
def imgCtx : PdfAnalysisContext :=
  { fileName := "f".data, pageCount := 1, textContent := "photo".data,
    hasImages := true, hasTables := false, hasLinks := false,
    language := "en".data, wcagLevel := .AA }

/-- A registered tool that can process nothing. -/
def c2tool : RegisteredTool :=
  { canProcess := fun _ => false, run := fun _ _ => .error "never".data }

/-- A registry holding only `c2tool` under the name "x". -/
def c2reg : Registry :=
  fun n => if n = "x".data then some c2tool else none

/-- A successful envelope. -/
def c4res : ToolExecutionResult :=
  { toolName := "good".data, success := true, issuesFound := [],
    fixesApplied := [] }

/-- An eligible, non-throwing tool returning `c4res`. -/
def c4tool : RegisteredTool :=
  { canProcess := fun _ => true, run := fun _ _ => .ok c4res }

/-- A registry holding only `c4tool` under the name "good". -/
def c4reg : Registry :=
  fun n => if n = "good".data then some c4tool else none

/-- A registry holding the image analyzer over a given random stream. -/
def c7reg (rand : RandStream) : Registry :=
  fun n => if n = "image_alttext".data then some (imageAltTextTool rand) else none

/-- The all-zero random stream. -/
def c7rA : RandStream := fun _ => 0

/-- A stream agreeing with `c7rA` on the first six draws only. -/
def c7rB : RandStream := fun i => if i < 6 then 0 else 1

/-- The constant one-half random stream. -/
def c7rHalf : RandStream := fun _ => Rat.divInt 1 2

/-- The documentInfo of the C9 counterexample. -/
def c9dinfo : DocumentInfo := { fileName := "doc.pdf".data }

/-! ## The claims -/

/-- Claim C1 (amended): the compliance score lies in [0, 100] whenever
2·appliedFixes does not exceed maxScore; without that bound the score can
exceed 100 (see the counterexample). -/
theorem claim_C1_score_bounded (rs : List ToolExecutionResult)
    (h : 2 * appliedFixCount rs ≤ maxScoreOf rs) :
    0 ≤ complianceScore rs ∧ complianceScore rs ≤ 100 := by
  by_cases hm : 0 < maxScoreOf rs
  · rw [complianceScore_pos_eq rs hm]
    have hm' : (0 : ℚ) < (maxScoreOf rs : ℚ) := by exact_mod_cast hm
    constructor
    · apply Int.le_floor.mpr
      push_cast
      positivity
    · have hr : 2 * (appliedFixCount rs : ℚ) / (maxScoreOf rs : ℚ) ≤ 1 := by
        rw [div_le_one hm']
        exact_mod_cast h
      have h100 : 2 * (appliedFixCount rs : ℚ) / (maxScoreOf rs : ℚ) * 100 ≤ 100 := by
        nlinarith
      have hlt : ⌊2 * (appliedFixCount rs : ℚ) / (maxScoreOf rs : ℚ) * 100 + 1 / 2⌋
          < 101 := by
        apply Int.floor_lt.mpr
        push_cast
        linarith
      omega
  · unfold complianceScore
    rw [if_neg hm]
    norm_num

/-- Claim C1 witness: a concrete envelope list satisfying the bound. -/
theorem claim_C1_score_bounded_witness :
    2 * appliedFixCount c1wit ≤ maxScoreOf c1wit ∧
    (0 ≤ complianceScore c1wit ∧ complianceScore c1wit ≤ 100) :=
  ⟨by decide, claim_C1_score_bounded c1wit (by decide)⟩

/-- Claim C1 counterexample: one low issue plus one applied fix yields a
compliance score of 200, outside [0, 100]. -/
theorem claim_C1_score_can_exceed_100 : complianceScore c1cex = 200 := by decide

/-- Claim C2 (amended): executeTools returns the envelopes of the ordered
names, and summary.success is the conjunction of each name's
contribution, where an ineligible tool (canProcess false) contributes
true even though its envelope carries success = false. -/
theorem claim_C2_summary_success_formula :
    ∀ (reg : Registry) (names : List Str) (ctx : PdfAnalysisContext)
      (llm : Bool),
      (executeTools reg names ctx llm).1 =
        (optimizeToolOrder names).map (processName reg ctx llm) ∧
      (executeTools reg names ctx llm).2.success =
        (optimizeToolOrder names).all (nameSuccessFlag reg ctx llm) :=
  fun reg names ctx llm =>
    ⟨executeTools_results reg names ctx llm,
      executeTools_success reg names ctx llm⟩

/-- Claim C2 counterexample: a registered ineligible tool produces a
failure envelope, yet summary.success stays true. -/
theorem claim_C2_cannotProcess_keeps_success :
    (executeTools c2reg ["x".data] sampleCtx false).2.success = true ∧
    ((executeTools c2reg ["x".data] sampleCtx false).1.all fun r => r.success)
      = false := by
  decide

/-- Claim C3 (amended): the logical-structure flag holds iff each heading
level exceeds the immediately preceding heading's level (0 before the
first) by at most one - the previous level, not the running maximum. -/
theorem claim_C3_hasLogical_adjacent_chain :
    ∀ hs : List HeadingInfo,
      (hasLogicalHeadingStructure hs = true ↔
        List.Chain (fun p c => c ≤ p + 1) 0 (hs.map fun h => h.level)) := by
  intro hs
  simpa [hasLogicalHeadingStructure] using hasLogicalGo_iff_chain hs 0

/-- Claim C3 counterexample: levels [1,2,3,1,3] never exceed the running
maximum plus one, yet the analyzer reports the structure as not logical. -/
theorem claim_C3_running_max_disagrees :
    (([1, 2, 3, 1, 3].map mkHeading).map fun h => h.level) = [1, 2, 3, 1, 3] ∧
    levelsNoJumpAboveRunningMax [1, 2, 3, 1, 3] = true ∧
    hasLogicalHeadingStructure ([1, 2, 3, 1, 3].map mkHeading) = false := by
  decide

/-- Helper: over a two-name request the priority sort returns the two
names in one of the two orders. -/
theorem optimizeToolOrder_pair (a b : Str) :
    optimizeToolOrder [a, b] = [a, b] ∨ optimizeToolOrder [a, b] = [b, a] := by
  unfold optimizeToolOrder
  by_cases hp : toolPriority b < toolPriority a
  · exact Or.inr (by simp [List.foldl, insertByPriority, hp])
  · exact Or.inl (by simp [List.foldl, insertByPriority, hp])

/-- Claim C4: with one unregistered name and one registered, eligible,
non-throwing analyzer, executeTools returns exactly the not-found failure
envelope and the analyzer's (successful) envelope, in either order,
regardless of the order of the two requested names. -/
theorem claim_C4_isolation (reg : Registry) (ctx : PdfAnalysisContext)
    (llm : Bool) (n1 n2 : Str) (t : RegisteredTool) (r : ToolExecutionResult)
    (names : List Str)
    (h1 : reg n1 = none) (h2 : reg n2 = some t)
    (hc : t.canProcess ctx = true) (hr : t.run ctx llm = .ok r)
    (hs : r.success = true)
    (hn : names = [n1, n2] ∨ names = [n2, n1]) :
    ((executeTools reg names ctx llm).1 = [notFoundResult n1, r] ∨
      (executeTools reg names ctx llm).1 = [r, notFoundResult n1]) ∧
    r.success = true := by
  refine ⟨?_, hs⟩
  have hp1 : processName reg ctx llm n1 = notFoundResult n1 := by
    simp [processName, h1]
  have hp2 : processName reg ctx llm n2 = r := by
    simp [processName, h2, hc, hr]
  rw [executeTools_results]
  rcases hn with hn | hn <;> subst hn <;>
    rcases optimizeToolOrder_pair _ _ with ho | ho <;> rw [ho] <;>
    simp [hp1, hp2]

/-- Claim C4 witness: a concrete registry, one missing and one good name. -/
theorem claim_C4_isolation_witness :
    ((executeTools c4reg ["missing".data, "good".data] sampleCtx false).1 =
        [notFoundResult "missing".data, c4res] ∨
      (executeTools c4reg ["missing".data, "good".data] sampleCtx false).1 =
        [c4res, notFoundResult "missing".data]) ∧
    c4res.success = true :=
  claim_C4_isolation c4reg sampleCtx false "missing".data "good".data c4tool
    c4res ["missing".data, "good".data] rfl rfl rfl rfl rfl (Or.inl rfl)

/-- Claim C5 (amended): on the specification's scenario text the analyzer
extracts five headings (every non-blank line) at levels [2,2,3,4,4],
reports the structure as not logical, and reports level 1 as skipped. -/
theorem claim_C5_heading_extraction_actual :
    ((extractHeadings c5text).map fun h => h.level) = [2, 2, 3, 4, 4] ∧
    hasLogicalHeadingStructure (extractHeadings c5text) = false ∧
    findSkippedLevels (extractHeadings c5text) = [1] := by
  decide

/-- Claim C5 counterexample: the extraction yields five headings, not the
three at levels [1,2,3] the specification promises. -/
theorem claim_C5_extraction_disagrees :
    (extractHeadings c5text).length = 5 ∧
    ((extractHeadings c5text).map fun h => h.level) ≠ [1, 2, 3] := by
  decide

/-- Claim C6: the 3x3 pipe table is detected once, with headers, as a
data table without caption; the only issue raised is the medium-severity
missing-caption issue, and no missing-headers issue. -/
theorem claim_C6_pipe_table :
    ((analyzeTableStructure c6ctx).tables.map fun t =>
      (t.hasHeaders, t.isDataTable, t.hasCaption)) = [(true, true, false)] ∧
    (analyzeTableStructure c6ctx).tablesWithoutHeaders = [] ∧
    identifyTableIssues (analyzeTableStructure c6ctx) =
      (analyzeTableStructure c6ctx).tablesWithoutCaptions.map tableCaptionIssue ∧
    ((identifyTableIssues (analyzeTableStructure c6ctx)).map fun i => i.severity)
      = [.medium] := by
  decide

/-- Claim C7 (amended): the image analyzer's output is determined by the
context together with the Math.random draws it consumes; two runs whose
streams agree on the consumed prefix produce identical envelopes. -/
theorem claim_C7_determinism_given_draws (r1 r2 : RandStream)
    (ctx : PdfAnalysisContext) (llm : Bool)
    (h : ∀ i, i < 6 * min (imagePatternCount ctx.textContent) 10 → r1 i = r2 i) :
    imageToolExecute r1 ctx llm = imageToolExecute r2 ctx llm := by
  have himg : extractImageInfo r1 ctx = extractImageInfo r2 ctx := by
    unfold extractImageInfo
    apply List.map_congr_left
    intro i hi
    rw [List.mem_range] at hi
    have h0 := h (6 * i) (by omega)
    have h1 := h (6 * i + 1) (by omega)
    have h2 := h (6 * i + 2) (by omega)
    have h3 := h (6 * i + 3) (by omega)
    have h4 := h (6 * i + 4) (by omega)
    have h5 := h (6 * i + 5) (by omega)
    rw [h0, h1, h2, h3, h4, h5]
  unfold imageToolExecute
  rw [himg]

/-- Claim C7 witness: streams agreeing on the six consumed draws. -/
theorem claim_C7_determinism_given_draws_witness :
    (∀ i, i < 6 * min (imagePatternCount imgCtx.textContent) 10 →
      c7rA i = c7rB i) ∧
    imageToolExecute c7rA imgCtx true = imageToolExecute c7rB imgCtx true :=
  ⟨by decide, claim_C7_determinism_given_draws c7rA c7rB imgCtx true (by decide)⟩

/-- Claim C7 counterexample: the same context, names and fix generator
yield different issue lists under different Math.random draws, so two
invocations of executeTools need not agree. -/
theorem claim_C7_random_breaks_determinism :
    ((executeTools (c7reg c7rHalf) ["image_alttext".data] imgCtx true).1.map
      fun r => r.issuesFound.length) = [2] ∧
    ((executeTools (c7reg c7rA) ["image_alttext".data] imgCtx true).1.map
      fun r => r.issuesFound.length) = [1] := by
  decide

/-- Claim C8: the score of an empty envelope list is 100, and holding the
four severity counts fixed the score is non-decreasing in the applied-fix
count. -/
theorem claim_C8_empty_score_and_monotone :
    complianceScore [] = 100 ∧
    ∀ rs1 rs2 : List ToolExecutionResult,
      severityCount .critical rs1 = severityCount .critical rs2 →
      severityCount .high rs1 = severityCount .high rs2 →
      severityCount .medium rs1 = severityCount .medium rs2 →
      severityCount .low rs1 = severityCount .low rs2 →
      appliedFixCount rs1 ≤ appliedFixCount rs2 →
      complianceScore rs1 ≤ complianceScore rs2 := by
  refine ⟨by decide, ?_⟩
  intro rs1 rs2 hc hh hm hl hf
  have hmax : maxScoreOf rs1 = maxScoreOf rs2 := by
    unfold maxScoreOf
    rw [hc, hh, hm, hl]
  by_cases hp : 0 < maxScoreOf rs1
  · rw [complianceScore_pos_eq rs1 hp, complianceScore_pos_eq rs2 (hmax ▸ hp),
      ← hmax]
    apply Int.floor_le_floor
    have hm' : (0 : ℚ) < (maxScoreOf rs1 : ℚ) := by exact_mod_cast hp
    have hf' : (appliedFixCount rs1 : ℚ) ≤ (appliedFixCount rs2 : ℚ) := by
      exact_mod_cast hf
    have h2 : 2 * (appliedFixCount rs1 : ℚ) / (maxScoreOf rs1 : ℚ) ≤
        2 * (appliedFixCount rs2 : ℚ) / (maxScoreOf rs1 : ℚ) :=
      (div_le_div_right hm').mpr (by linarith)
    have h3 := mul_le_mul_of_nonneg_right h2 (by norm_num : (0 : ℚ) ≤ 100)
    linarith
  · have hp2 : ¬ 0 < maxScoreOf rs2 := by omega
    unfold complianceScore
    rw [if_neg hp, if_neg hp2]

/-- Claim C8 witness: adding one applied fix to a fixed issue set does
not lower the score. -/
theorem claim_C8_empty_score_and_monotone_witness :
    severityCount .critical c8w1 = severityCount .critical c8w2 ∧
    severityCount .high c8w1 = severityCount .high c8w2 ∧
    severityCount .medium c8w1 = severityCount .medium c8w2 ∧
    severityCount .low c8w1 = severityCount .low c8w2 ∧
    appliedFixCount c8w1 ≤ appliedFixCount c8w2 ∧
    complianceScore c8w1 ≤ complianceScore c8w2 :=
  ⟨by decide, by decide, by decide, by decide, by decide,
    claim_C8_empty_score_and_monotone.2 c8w1 c8w2 (by decide) (by decide)
      (by decide) (by decide) (by decide)⟩

/-- Claim C9 (amended): for every tool-result list, document info, level
and integer before/after scores, exporting the audit report as JSON and
re-parsing it yields executive_summary.overall_score equal to the
afterScore passed to the builder. -/
theorem claim_C9_roundtrip_overall_score :
    ∀ (rs : List ToolExecutionResult) (dinfo : DocumentInfo) (w : Str)
      (b a : ℤ) (date : Str),
      parsedOverallScore rs dinfo w (.finite (b : ℚ)) (.finite (a : ℚ)) date =
        some (.num (a : ℚ)) := by
  intro rs dinfo w b a date
  rw [parsedOverallScore_eq rs dinfo w _ _ date
    (by simp [jsNumToJson, jsonIntish, Rat.den_intCast])
    (by simp [jsNumToJson, jsonIntish, Rat.den_intCast])]
  simp [jsNumToJson]

/-- Claim C9 counterexample: a non-finite afterScore (Infinity) is
serialized as null, so the re-parsed overall_score is null rather than
the afterScore passed in. -/
theorem claim_C9_special_score_roundtrip_fails :
    parsedOverallScore [] c9dinfo "AA".data (.finite 50) .posInf
      "2024-01-01".data = some JsonVal.null := by
  rw [parsedOverallScore_eq _ _ _ _ _ _ (by decide) (by decide)]
  simp [jsNumToJson]

/-- Claim C10: with beforeScore = 0 the report builder's
improvement_percentage is never a finite number: the unguarded division
by zero yields Infinity, -Infinity or NaN for every afterScore. -/
theorem claim_C10_zero_before_not_finite :
    ∀ (rs : List ToolExecutionResult) (dinfo : DocumentInfo) (w : Str)
      (after : JsNum) (date : Str),
      ((generateAuditReport rs dinfo w (.finite 0) after
          date).improvements_applied.before_after_comparison.improvement_percentage).isFinite
        = false := by
  intro rs dinfo w after date
  have hred : (generateAuditReport rs dinfo w (.finite 0) after
      date).improvements_applied.before_after_comparison.improvement_percentage =
      improvementPercentage (.finite 0) after := by
    simp [generateAuditReport]
  rw [hred]
  cases after with
  | finite q =>
    simp only [improvementPercentage, jsNumSub]
    have hq : qsub q 0 = q := by
      rw [qsub_eq]
      ring
    rw [hq]
    rcases lt_trichotomy q 0 with h | h | h
    · norm_num [jsNumDiv, not_lt_of_gt h, h, jsNumMul, jsNumRound,
        JsNum.isFinite]
    · subst h
      norm_num [jsNumDiv, jsNumMul, jsNumRound, JsNum.isFinite]
    · norm_num [jsNumDiv, not_lt_of_gt h, h, jsNumMul, jsNumRound,
        JsNum.isFinite]
  | posInf =>
    norm_num [improvementPercentage, jsNumSub, jsNumDiv, jsNumMul, jsNumRound,
      JsNum.isFinite]
  | negInf =>
    norm_num [improvementPercentage, jsNumSub, jsNumDiv, jsNumMul, jsNumRound,
      JsNum.isFinite]
  | nan =>
    norm_num [improvementPercentage, jsNumSub, jsNumDiv, jsNumMul, jsNumRound,
      JsNum.isFinite]

end PdfA
